import Mathlib

/-!
Shallow embedding of the intent-detection, parameter-extraction, deduplication
and action-dispatch pipeline of the chat backend
(`supabase/functions/chat/index.ts`), together with theorems settling the
claims about it.

Strings are modelled as `List Char` (`Str`).  JavaScript string operations
(`toLowerCase`, `includes`, `trim`, `slice(-6)`, the specific regular
expressions used by the source) are embedded as executable functions on
`Str`; each regular expression of the source is implemented as a dedicated
left-to-right scanner with the backtracking behaviour of the JS engine
(leftmost match, ordered alternation, greedy/lazy quantifiers as written).
JS `Date` values are embedded as minutes since the Unix epoch (`Int`); the
sub-minute components are irrelevant to every output the source produces
(it zeroes seconds whenever it sets a time).  The host timezone is modelled
as UTC, which is the deployment default for the edge runtime.
-/

set_option maxHeartbeats 2000000

namespace Chat

/-- Strings as lists of characters. -/
abbrev Str := List Char

/-- JS `String.prototype.toLowerCase` restricted to ASCII (the only
characters the source's keyword sets and regexes distinguish). -/
def lcChar (c : Char) : Char :=
  if 'A' ≤ c ∧ c ≤ 'Z' then Char.ofNat (c.toNat + 32) else c

/-- Lower-case a whole string. -/
def lower (s : Str) : Str := s.map lcChar

/-- ASCII digit test (JS `\d`). -/
def isDigitC (c : Char) : Bool := '0' ≤ c && c ≤ '9'

/-- ASCII letter test. -/
def isAlphaC (c : Char) : Bool :=
  ('a' ≤ c && c ≤ 'z') || ('A' ≤ c && c ≤ 'Z')

/-- Whitespace test (JS `\s`; the rare Unicode space characters are not
produced or matched anywhere in the source's inputs of interest). -/
def isSpaceC (c : Char) : Bool :=
  c == ' ' || c == '\t' || c == '\n' || c == '\r' || c == '\x0b' || c == '\x0c'

/-- JS `\w`: letters, digits and underscore. -/
def isWordC (c : Char) : Bool := isAlphaC c || isDigitC c || c == '_'

/-- `startsWith pat s`: `pat` is a prefix of `s`. -/
def startsWith : Str → Str → Bool
  | [], _ => true
  | _ :: _, [] => false
  | p :: ps, c :: cs => p == c && startsWith ps cs

/-- JS `String.prototype.includes` (contiguous substring search). -/
def containsSub (pat : Str) : Str → Bool
  | [] => pat.isEmpty
  | c :: cs => startsWith pat (c :: cs) || containsSub pat cs

/-- JS `String.prototype.trim`. -/
def trimS (s : Str) : Str :=
  ((s.dropWhile isSpaceC).reverse.dropWhile isSpaceC).reverse

/-- A chat message: `{ role, content }`. -/
structure Msg where
  role : Str
  content : Str
deriving DecidableEq

/-- JS `messages.slice(-6)`: the most recent six messages. -/
def lastN (n : Nat) (l : List Msg) : List Msg := l.drop (l.length - n)

/-- The `'user'` role string. -/
def userRole : Str := "user".data

/-- The `'assistant'` role string. -/
def assistantRole : Str := "assistant".data

/-- `messages.filter(m => m.role === 'user').pop()?.content`. -/
def lastUserContent (ms : List Msg) : Option Str :=
  ((ms.filter (fun m => m.role == userRole)).getLast?).map Msg.content

/-- `messages.filter(m => m.role === 'assistant').pop()?.content`. -/
def lastAssistantContent (ms : List Msg) : Option Str :=
  ((ms.filter (fun m => m.role == assistantRole)).getLast?).map Msg.content

/-- The email keyword set of `shouldFetchEmails`. -/
def emailKeywords : List Str :=
  [("email".data), ("emails".data), ("mail".data), ("inbox".data), ("gmail".data),
   ("read my".data), ("check my".data), ("show my".data), ("what are my".data),
   ("unread".data), ("messages".data), ("latest".data), ("recent".data)]

/-- The calendar keyword set of `shouldFetchCalendar`. -/
def calendarKeywords : List Str :=
  [("calendar".data), ("events".data), ("event".data), ("schedule".data),
   ("scheduled".data), ("meeting".data), ("meetings".data), ("appointment".data),
   ("appointments".data), ("what do i have".data), ("what\x27s on my".data),
   ("what is on my".data), ("upcoming".data), ("today".data), ("tomorrow".data),
   ("this week".data), ("next week".data), ("agenda".data), ("plans".data),
   ("busy".data)]

/-- The body of both keyword gates applied to one (already extracted)
message content: lower-case it and test membership of any keyword. -/
def gateContent (keys : List Str) (content : Str) : Bool :=
  keys.any (fun k => containsSub k (lower content))

/-- `shouldFetchEmails` from the source: true iff the most recent
user-authored message contains an email keyword (case-insensitively). -/
def shouldFetchEmails (ms : List Msg) : Bool :=
  match lastUserContent ms with
  | none => false
  | some c => gateContent emailKeywords c

/-- `shouldFetchCalendar` from the source. -/
def shouldFetchCalendar (ms : List Msg) : Bool :=
  match lastUserContent ms with
  | none => false
  | some c => gateContent calendarKeywords c

/-!
JS `Date` model.  A `Date` value is minutes since the Unix epoch (UTC); the
source zeroes seconds and milliseconds whenever it writes a time component,
so minute granularity captures every output it produces.  Conversion
between day counts and proleptic-Gregorian civil dates uses the standard
era/century/quadrennium decomposition.
-/

/-- Civil date to days since the epoch (standard Gregorian algorithm,
`m` in `1..12`). -/
def daysFromCivil (y m d : Int) : Int :=
  let y' := y - (if m ≤ 2 then 1 else 0)
  let era := y' / 400
  let yoe := y' - era * 400
  let doy := (153 * (m + (if 2 < m then -3 else 9)) + 2) / 5 + d - 1
  let doe := yoe * 365 + yoe / 4 - yoe / 100 + doy
  era * 146097 + doe - 719468

/-- Split a day count into 400-year era and day-of-era. -/
def doeSplit (z : Int) : Int × Int :=
  ((z + 719468) / 146097, z + 719468 - (z + 719468) / 146097 * 146097)

/-- Decompose a day-of-era into century, quadrennium, year-in-quadrennium
and day-of-year (March-based), clamping the leap-day cases. -/
def yearParts (doe : Int) : Int × Int × Int × Int :=
  let c := if doe / 36524 ≤ 3 then doe / 36524 else 3
  let doc := doe - c * 36524
  let q := if doc / 1461 ≤ 24 then doc / 1461 else 24
  let doq := doc - q * 1461
  let yiq := if doq / 365 ≤ 3 then doq / 365 else 3
  (c, q, yiq, doq - yiq * 365)

/-- March-based day-of-year to civil month and day. -/
def monthDay (doy : Int) : Int × Int :=
  let mp := (5 * doy + 2) / 153
  (if mp < 10 then mp + 3 else mp - 9, doy - (153 * mp + 2) / 5 + 1)

/-- Days since the epoch to a civil `(year, month, day)`. -/
def civilFromDays (z : Int) : Int × Int × Int :=
  let p := doeSplit z
  let yp := yearParts p.2
  let md := monthDay yp.2.2.2
  (p.1 * 400 + (yp.1 * 100 + yp.2.1 * 4 + yp.2.2.1) + (if md.1 ≤ 2 then 1 else 0),
   md.1, md.2)

/-- JS `new Date(year, monthIndex, day)` at local midnight, as a day count:
a year argument in `0..99` maps to `1900..1999`, and out-of-range month or
day arguments roll over, exactly as in JS. -/
def makeJsDate (year month day : Int) : Int :=
  let y0 := if 0 ≤ year ∧ year ≤ 99 then year + 1900 else year
  let tm := y0 * 12 + month
  let y := tm / 12
  let mo := tm - y * 12
  daysFromCivil y (mo + 1) 1 + (day - 1)

/-- Decimal digit character. -/
def digitCh (n : Nat) : Char :=
  match n with
  | 0 => '0' | 1 => '1' | 2 => '2' | 3 => '3' | 4 => '4'
  | 5 => '5' | 6 => '6' | 7 => '7' | 8 => '8' | _ => '9'

/-- Numeric value of a digit character. -/
def digitVal (c : Char) : Nat := c.toNat - 48

/-- Two decimal digits, zero padded. -/
def pad2 (n : Nat) : Str := [digitCh (n / 10 % 10), digitCh (n % 10)]

/-- Four decimal digits, zero padded. -/
def pad4 (n : Nat) : Str :=
  [digitCh (n / 1000 % 10), digitCh (n / 100 % 10), digitCh (n / 10 % 10),
   digitCh (n % 10)]

/-- Six decimal digits, zero padded (JS expanded-year format). -/
def pad6 (n : Nat) : Str :=
  [digitCh (n / 100000 % 10), digitCh (n / 10000 % 10), digitCh (n / 1000 % 10),
   digitCh (n / 100 % 10), digitCh (n / 10 % 10), digitCh (n % 10)]

/-- The year field of `toISOString`: four digits for `0..9999`, otherwise
the JS expanded `±YYYYYY` form. -/
def isoYearStr (y : Int) : Str :=
  if 0 ≤ y ∧ y ≤ 9999 then pad4 y.toNat
  else if 9999 < y then '+' :: pad6 y.toNat
  else '-' :: pad6 (-y).toNat

/-- `toISOString().split('T')[0]` of a minute-count `Date`. -/
def isoDatePart (mins : Int) : Str :=
  let c := civilFromDays (mins / 1440)
  isoYearStr c.1 ++ '-' :: pad2 c.2.1.toNat ++ '-' :: pad2 c.2.2.toNat

/-- Full `toISOString()` of a minute-count `Date` (seconds and milliseconds
are zero for every value the source formats). -/
def isoMinutes (mins : Int) : Str :=
  let rem := mins - mins / 1440 * 1440
  isoDatePart mins ++ 'T' :: pad2 (rem / 60).toNat ++ ':' :: pad2 (rem % 60).toNat
    ++ (":00.000Z".data)

/-!
Regex scanners.  Each regular expression of the source is embedded as a
scanner with JS semantics: positions are tried left to right, at a position
alternatives are tried in their written order, greedy/optional pieces take
the longest alternative first and backtrack on failure of the rest of the
pattern, lazy pieces take the shortest first.
-/

/-- `dropPrefix pat s`: the remainder of `s` after the literal prefix
`pat`, when it is one. -/
def dropPrefix : Str → Str → Option Str
  | [], s => some s
  | _ :: _, [] => none
  | p :: ps, c :: cs => if p == c then dropPrefix ps cs else none

/-- Ordered alternation of literal alternatives carrying a value; the rest
of the pattern (`k`) runs on the remainder, with backtracking to later
alternatives on failure. -/
def altFirst {α β : Type} (k : α → Str → Option β) :
    List (Str × α) → Str → Option β
  | [], _ => none
  | (pat, v) :: rest, s =>
    match dropPrefix pat s with
    | some s' => (k v s').orElse (fun _ => altFirst k rest s)
    | none => altFirst k rest s

/-- Optional literal alternatives (a `(?:a|b|…)?` group): longest-first
with backtracking, finally the empty alternative. -/
def optAlts {β : Type} (k : Str → Option β) : List Str → Str → Option β
  | [], s => k s
  | a :: rest, s =>
    match dropPrefix a s with
    | some s' => (k s').orElse (fun _ => optAlts k rest s)
    | none => optAlts k rest s

/-- An optional single character out of a class (`[,:]?` and similar):
greedy with backtracking. -/
def optCharC {β : Type} (cls : List Char) (k : Str → Option β) (s : Str) :
    Option β :=
  match s with
  | c :: cs => if c ∈ cls then (k cs).orElse (fun _ => k (c :: cs)) else k (c :: cs)
  | [] => k []

/-- `\s*`: greedy with backtracking. -/
def wsStar {β : Type} (k : Str → Option β) : Str → Option β
  | [] => k []
  | c :: cs =>
    if isSpaceC c then (wsStar k cs).orElse (fun _ => k (c :: cs)) else k (c :: cs)

/-- `\s+`: at least one whitespace character, greedy with backtracking. -/
def wsPlus {β : Type} (k : Str → Option β) : Str → Option β
  | [] => none
  | c :: cs => if isSpaceC c then wsStar k cs else none

/-- `\d{1,2}`: greedy (two digits first) with backtracking, yielding the
parsed value. -/
def digits12 {β : Type} (k : Nat → Str → Option β) : Str → Option β
  | c1 :: c2 :: cs =>
    if isDigitC c1 then
      if isDigitC c2 then
        (k (digitVal c1 * 10 + digitVal c2) cs).orElse
          (fun _ => k (digitVal c1) (c2 :: cs))
      else k (digitVal c1) (c2 :: cs)
    else none
  | [c1] => if isDigitC c1 then k (digitVal c1) [] else none
  | [] => none

/-- `\d{2}`: exactly two digits. -/
def digits2 {β : Type} (k : Nat → Str → Option β) : Str → Option β
  | a :: b :: cs =>
    if isDigitC a && isDigitC b then k (digitVal a * 10 + digitVal b) cs else none
  | _ => none

/-- `\d{4}`: exactly four digits. -/
def digits4 {β : Type} (k : Nat → Str → Option β) : Str → Option β
  | a :: b :: c :: d :: cs =>
    if isDigitC a && isDigitC b && isDigitC c && isDigitC d then
      k (digitVal a * 1000 + digitVal b * 100 + digitVal c * 10 + digitVal d) cs
    else none
  | _ => none

/-- Scan driver: try a match at every position, left to right, keeping the
previous character for `\b` tests. -/
def scanFrom {β : Type} (matchAt : Option Char → Str → Option β) :
    Option Char → Str → Option β
  | prev, [] => matchAt prev []
  | prev, c :: cs =>
    (matchAt prev (c :: cs)).orElse (fun _ => scanFrom matchAt (some c) cs)

/-- `\b` before a word character: the previous character must not be a word
character (or there is none). -/
def boundaryBefore (prev : Option Char) : Bool :=
  match prev with
  | none => true
  | some c => !isWordC c

/-- `\b` after a word character: the next character must not be a word
character (or the string ends). -/
def boundaryAfter (s : Str) : Bool :=
  match s with
  | [] => true
  | c :: _ => !isWordC c

/-- The month-name alternation of `parseFlexibleDate`, in source order,
with the `months` map values (0-based). -/
def monthAlts : List (Str × Nat) :=
  [(("january".data), 0), (("february".data), 1), (("march".data), 2),
   (("april".data), 3), (("may".data), 4), (("june".data), 5),
   (("july".data), 6), (("august".data), 7), (("september".data), 8),
   (("october".data), 9), (("november".data), 10), (("december".data), 11),
   (("jan".data), 0), (("feb".data), 1), (("mar".data), 2), (("apr".data), 3),
   (("jun".data), 5), (("jul".data), 6), (("aug".data), 7), (("sep".data), 8),
   (("sept".data), 8), (("oct".data), 9), (("nov".data), 10), (("dec".data), 11)]

/-- The `(?:st|nd|rd|th)?` ordinal suffixes. -/
def ordinalAlts : List Str := [("st".data), ("nd".data), ("rd".data), ("th".data)]

/-- Pattern `\b(month)\s+(\d{4})\b` ("May 2026"), yielding
`(monthIndex, year)`. -/
def monthYearScan (s : Str) : Option (Nat × Nat) :=
  scanFrom (fun prev t =>
    if boundaryBefore prev then
      altFirst (fun mo t1 =>
        wsPlus (fun t2 =>
          digits4 (fun yr t3 =>
            if boundaryAfter t3 then some (mo, yr) else none) t2) t1)
        monthAlts t
    else none) none s

/-- Pattern `\b(month)\s+(\d{1,2})(?:st|nd|rd|th)?,?\s+(\d{4})\b`
("May 15, 2026"), yielding `(monthIndex, day, year)`. -/
def monthDayYearScan (s : Str) : Option (Nat × Nat × Nat) :=
  scanFrom (fun prev t =>
    if boundaryBefore prev then
      altFirst (fun mo t1 =>
        wsPlus (fun t2 =>
          digits12 (fun day t3 =>
            optAlts (fun t4 =>
              optCharC [','] (fun t5 =>
                wsPlus (fun t6 =>
                  digits4 (fun yr t7 =>
                    if boundaryAfter t7 then some (mo, day, yr) else none) t6)
                  t5) t4) ordinalAlts t3) t2) t1)
        monthAlts t
    else none) none s

/-- Pattern `\b(\d{1,2})(?:st|nd|rd|th)?\s+(month)\s+(\d{4})\b`
("15 May 2026"), yielding `(day, monthIndex, year)`. -/
def dayMonthYearScan (s : Str) : Option (Nat × Nat × Nat) :=
  scanFrom (fun prev t =>
    if boundaryBefore prev then
      digits12 (fun day t1 =>
        optAlts (fun t2 =>
          wsPlus (fun t3 =>
            altFirst (fun mo t4 =>
              wsPlus (fun t5 =>
                digits4 (fun yr t6 =>
                  if boundaryAfter t6 then some (day, mo, yr) else none) t5) t4)
              monthAlts t3) t2) ordinalAlts t1) t
    else none) none s

/-- Pattern `\b(\d{4})-(\d{2})-(\d{2})\b`, yielding `(year, month, day)`
(month 1-based as captured). -/
def isoScan (s : Str) : Option (Nat × Nat × Nat) :=
  scanFrom (fun prev t =>
    if boundaryBefore prev then
      digits4 (fun yr t1 =>
        match t1 with
        | '-' :: t2 =>
          digits2 (fun mo t3 =>
            match t3 with
            | '-' :: t4 =>
              digits2 (fun d t5 =>
                if boundaryAfter t5 then some (yr, mo, d) else none) t4
            | _ => none) t2
        | _ => none) t
    else none) none s

/-- Pattern `\b(\d{1,2})\/(\d{1,2})\/(\d{4})\b`, yielding
`(month, day, year)` as captured (US order). -/
def usScan (s : Str) : Option (Nat × Nat × Nat) :=
  scanFrom (fun prev t =>
    if boundaryBefore prev then
      digits12 (fun mo t1 =>
        match t1 with
        | '/' :: t2 =>
          digits12 (fun d t3 =>
            match t3 with
            | '/' :: t4 =>
              digits4 (fun yr t5 =>
                if boundaryAfter t5 then some (mo, d, yr) else none) t4
            | _ => none) t2
        | _ => none) t
    else none) none s

/-- The `(am|pm)?` group: `some false` = am, `some true` = pm. -/
def optAmPm {β : Type} (k : Option Bool → Str → Option β) (s : Str) : Option β :=
  match dropPrefix ("am".data) s with
  | some s' => (k (some false) s').orElse (fun _ =>
      match dropPrefix ("pm".data) s with
      | some s'' => (k (some true) s'').orElse (fun _ => k none s)
      | none => k none s)
  | none =>
      match dropPrefix ("pm".data) s with
      | some s'' => (k (some true) s'').orElse (fun _ => k none s)
      | none => k none s

/-- The `(?::(\d{2}))?` optional minute group (greedy, backtracking). -/
def optMinute {β : Type} (k : Option Nat → Str → Option β) (s : Str) : Option β :=
  match s with
  | c :: s1 =>
    if c = ':' then
      match digits2 (fun mi s2 => some (mi, s2)) s1 with
      | some (mi, s2) => (k (some mi) s2).orElse (fun _ => k none (c :: s1))
      | none => k none (c :: s1)
    else k none (c :: s1)
  | [] => k none []

/-- Body of the time pattern after the optional `at` prefix:
`(\d{1,2})(?::(\d{2}))?\s*(am|pm)?`, yielding `(hour, minute, am/pm)`. -/
def timeCore (s : Str) : Option (Nat × Nat × Option Bool) :=
  digits12 (fun h s1 =>
    optMinute (fun mi s2 =>
      wsStar (fun s3 =>
        optAmPm (fun ap _ => some (h, mi.getD 0, ap)) s3) s2) s1) s

/-- One position of the time pattern
`(?:at\s+)?(\d{1,2})(?::(\d{2}))?\s*(am|pm)?`. -/
def matchTimeAt (s : Str) : Option (Nat × Nat × Option Bool) :=
  match dropPrefix ("at".data) s with
  | some s1 => (wsPlus timeCore s1).orElse (fun _ => timeCore s)
  | none => timeCore s

/-- The time scan of `parseFlexibleDate` (its regex has no `\b`, so the
first position admitting a match wins). -/
def timeScan (s : Str) : Option (Nat × Nat × Option Bool) :=
  scanFrom (fun _ t => matchTimeAt t) none s

/-- The result of `parseFlexibleDate`: `{ start, end, allDay }` (the `end`
field is named `endTs`, `end` being reserved in Lean). -/
structure DateRange where
  startTs : Str
  endTs : Str
  allDay : Bool
deriving DecidableEq

/-- The date-pattern portion of `parseFlexibleDate` (the `else` block):
sequential assignment of `targetDate`, where Month-Day-Year and ISO
overwrite an earlier match and Day-Month-Year and `MM/DD/YYYY` only apply
when `targetDate` is still unset.  The result is a day count. -/
def patternDate (content : Str) : Option Int :=
  let t1 : Option Int :=
    match monthYearScan content with
    | some (mo, yr) => some (makeJsDate (yr : Int) (mo : Int) 1)
    | none => none
  let t2 : Option Int :=
    match monthDayYearScan content with
    | some (mo, d, yr) => some (makeJsDate (yr : Int) (mo : Int) (d : Int))
    | none => t1
  let t3 : Option Int :=
    match dayMonthYearScan content, t2 with
    | some (d, mo, yr), none => some (makeJsDate (yr : Int) (mo : Int) (d : Int))
    | _, _ => t2
  let t4 : Option Int :=
    match isoScan content with
    | some (yr, mo, d) => some (makeJsDate (yr : Int) ((mo : Int) - 1) (d : Int))
    | none => t3
  match usScan content, t4 with
  | some (mo, d, yr), none => some (makeJsDate (yr : Int) ((mo : Int) - 1) (d : Int))
  | _, _ => t4

/-- `targetDate` resolution of `parseFlexibleDate`: the relative words take
precedence (in the order today, tomorrow, next week), otherwise the date
patterns.  The result is in minutes; relative dates keep the time of day of
`now`, pattern dates are local midnight. -/
def resolveTargetDate (now : Int) (content : Str) : Option Int :=
  if containsSub ("today".data) content then some now
  else if containsSub ("tomorrow".data) content then some (now + 1440)
  else if containsSub ("next week".data) content then some (now + 7 * 1440)
  else (patternDate content).map (fun days => days * 1440)

/-- The 12-hour to 24-hour adjustment of `parseFlexibleDate`: pm adds 12
unless the hour is already ≥ 12, and 12am becomes 0. -/
def jsHour (h : Nat) (ap : Option Bool) : Nat :=
  let h1 := if ap = some true ∧ h < 12 then h + 12 else h
  if ap = some false ∧ h1 = 12 then 0 else h1

/-- The all-day result: date-only strings, end = start + 1 day. -/
def allDayRange (td : Int) : Option DateRange :=
  some ⟨isoDatePart td, isoDatePart (td + 1440), true⟩

/-- `parseFlexibleDate` from the source: lower-case the text, resolve
`targetDate`, then apply a time of day when the first `H[:MM][am|pm]`-like
match passes the validity check (explicit am/pm, or an hour above 12); end
is start + 1 hour for timed results and start + 1 day for all-day ones. -/
def parseFlexibleDate (now : Int) (text : Str) : Option DateRange :=
  let content := lower text
  match resolveTargetDate now content with
  | none => none
  | some td0 =>
    match timeScan content with
    | some (h, mi, ap) =>
      let hh := jsHour h ap
      if hh ≤ 23 && (ap.isSome || decide (12 < hh)) then
        let td := td0 / 1440 * 1440 + (hh : Int) * 60 + (mi : Int)
        some ⟨isoMinutes td, isoMinutes (td + 60), false⟩
      else allDayRange td0
    | none => allDayRange td0

/-!
Send-email intent extraction (`extractSendEmailIntent`).
-/

/-- Case-insensitive literal prefix (for `/i` regexes over original-case
text; the literal patterns are stored lower-case). -/
def dropPrefixCI : Str → Str → Option Str
  | [], s => some s
  | _ :: _, [] => none
  | p :: ps, c :: cs => if lcChar c == p then dropPrefixCI ps cs else none

/-- Ordered case-insensitive alternation with backtracking. -/
def altFirstCI {α β : Type} (k : α → Str → Option β) :
    List (Str × α) → Str → Option β
  | [], _ => none
  | (pat, v) :: rest, s =>
    match dropPrefixCI pat s with
    | some s' => (k v s').orElse (fun _ => altFirstCI k rest s)
    | none => altFirstCI k rest s

/-- Greedy character-class star with backtracking. -/
def clsStar {β : Type} (p : Char → Bool) (k : Str → Option β) : Str → Option β
  | [] => k []
  | c :: cs =>
    if p c then (clsStar p k cs).orElse (fun _ => k (c :: cs)) else k (c :: cs)

/-- Greedy character-class plus (at least one) with backtracking. -/
def clsPlus {β : Type} (p : Char → Bool) (k : Str → Option β) : Str → Option β
  | [] => none
  | c :: cs => if p c then clsStar p k cs else none

/-- Maximal run of a character class and the remainder. -/
def takeRun (p : Char → Bool) : Str → Str × Str
  | [] => ([], [])
  | c :: cs =>
    if p c then
      let r := takeRun p cs
      (c :: r.1, r.2)
    else ([], c :: cs)

/-- The `[\w.-]` class of the email-address pattern. -/
def isWordDotDash (c : Char) : Bool := isWordC c || c == '.' || c == '-'

/-- Literal `.` followed by `\w+` (the end of the email-address pattern). -/
def dotPart : Str → Option Str
  | '.' :: cs =>
    let w := takeRun isWordC cs
    if w.1.isEmpty then none else some ('.' :: w.1)
  | _ => none

/-- `[\w.-]*\.\w+` with greedy backtracking: prefer consuming another class
character, fall back to the literal dot here. -/
def emailTailRest : Str → Option Str
  | [] => none
  | c :: cs =>
    if isWordDotDash c then
      match emailTailRest cs with
      | some m => some (c :: m)
      | none => dotPart (c :: cs)
    else dotPart (c :: cs)

/-- `[\w.-]+\.\w+` (the part after `@`). -/
def emailTail : Str → Option Str
  | [] => none
  | c :: cs =>
    if isWordDotDash c then (emailTailRest cs).map (fun m => c :: m) else none

/-- One position of `[\w.-]+@[\w.-]+\.\w+`.  The leading `[\w.-]+` needs no
backtracking: `@` is outside the class, so only the maximal run can be
followed by `@`. -/
def matchEmailAt (s : Str) : Option Str :=
  let r := takeRun isWordDotDash s
  if r.1.isEmpty then none
  else
    match r.2 with
    | '@' :: rest => (emailTail rest).map (fun m => r.1 ++ '@' :: m)
    | _ => none

/-- First match of the email-address pattern (the extracted recipient). -/
def emailAddrScan (s : Str) : Option Str :=
  scanFrom (fun _ t => matchEmailAt t) none s

/-- `[:\s]` (label separator class). -/
def isColonSpace (c : Char) : Bool := c == ':' || isSpaceC c

/-- Capture class `[^,.\n]` of the subject pattern. -/
def subjCls (c : Char) : Bool := !(c == ',' || c == '.' || c == '\n')

/-- First match of `(?:title|subject)[:\s]+([^,.\n]+)` (case-insensitive),
returning the raw capture. -/
def subjectScan (s : Str) : Option Str :=
  scanFrom (fun _ t =>
    altFirstCI (fun _ t1 =>
      clsPlus isColonSpace (fun t2 =>
        let cap := takeRun subjCls t2
        if cap.1.isEmpty then none else some cap.1) t1)
      [(("title".data), ()), (("subject".data), ())] t) none s

/-- First match of `(?:body|content|message)[:\s]+(.+)` with the `s` flag
(the capture runs to the end of the string), returning the raw capture. -/
def bodyScan (s : Str) : Option Str :=
  scanFrom (fun _ t =>
    altFirstCI (fun _ t1 =>
      clsPlus isColonSpace (fun t2 => if t2.isEmpty then none else some t2) t1)
      [(("body".data), ()), (("content".data), ()), (("message".data), ())] t)
    none s

/-- `^(yes|send it|go ahead|confirm|do it|ok|okay)\s*$` on the lower-cased
content (whole-message affirmative). -/
def affirmEmail (s : Str) : Bool :=
  (altFirst (fun _ rest =>
      if (rest.dropWhile isSpaceC).isEmpty then some () else none)
    [(("yes".data), ()), (("send it".data), ()), (("go ahead".data), ()),
     (("confirm".data), ()), (("do it".data), ()), (("ok".data), ()),
     (("okay".data), ())] s).isSome

/-- The capture class `[^\n,]` of the draft `to:` pattern. -/
def draftToCls (c : Char) : Bool := !(c == '\n' || c == ',')

/-- Valid split of a `[^\n,]+@[^\n,]+` capture: some `@` occurs neither
first nor last in the run (the class itself contains `@`, so the greedy
second part always extends to the end of the run). -/
def hasInnerAt (r : Str) : Bool :=
  match r with
  | [] => false
  | _ :: rest => rest.dropLast.contains '@'

/-- First match of `to[:\s]+([^\n,]+@[^\n,]+)` (case-insensitive),
returning the raw capture. -/
def draftToScan (s : Str) : Option Str :=
  scanFrom (fun _ t =>
    dropPrefixCI ("to".data) t |>.bind (fun t1 =>
      clsPlus isColonSpace (fun t2 =>
        let r := takeRun draftToCls t2
        if hasInnerAt r.1 then some r.1 else none) t1)) none s

/-- First match of `subject[:\s]+([^\n]+)` (case-insensitive), returning
the raw capture. -/
def draftSubjectScan (s : Str) : Option Str :=
  scanFrom (fun _ t =>
    dropPrefixCI ("subject".data) t |>.bind (fun t1 =>
      clsPlus isColonSpace (fun t2 =>
        let cap := takeRun (fun c => !(c == '\n')) t2
        if cap.1.isEmpty then none else some cap.1) t1)) none s

/-- Terminator of the lazy draft-body capture:
`(?:\n\n(?:would you|best regards|let me know|---)|$)`. -/
def draftBodyTerm (s : Str) : Bool :=
  match s with
  | [] => true
  | '\n' :: '\n' :: rest =>
    (dropPrefixCI ("would you".data) rest).isSome ||
      (dropPrefixCI ("best regards".data) rest).isSome ||
      (dropPrefixCI ("let me know".data) rest).isSome ||
      (dropPrefix ("---".data) rest).isSome
  | _ => false

/-- Lazy capture (`[\s\S]+?`): after at least one character, stop at the
first position where the terminator matches. -/
def lazyCapGo (term : Str → Bool) (acc : Str) : Str → Option Str
  | [] => if term [] then some acc.reverse else none
  | c :: cs => if term (c :: cs) then some acc.reverse else lazyCapGo term (c :: acc) cs

/-- First match of the draft body pattern
`(?:body|dear|the company|hi|hello)[:\s]*\n?([\s\S]+?)(?:\n\n(...)|$)`,
returning the raw capture. -/
def draftBodyScan (s : Str) : Option Str :=
  scanFrom (fun _ t =>
    altFirstCI (fun _ t1 =>
      clsStar isColonSpace (fun t2 =>
        optCharC ['\n'] (fun t3 =>
          match t3 with
          | c :: cs => lazyCapGo draftBodyTerm [c] cs
          | [] => none) t2) t1)
      [(("body".data), ()), (("dear".data), ()), (("the company".data), ()),
       (("hi".data), ()), (("hello".data), ())] t) none s

/-- `SendEmailParams` of the source (the `to` field is named `toAddr`). -/
structure SendEmailParams where
  toAddr : Str
  subject : Str
  body : Str
deriving DecidableEq

/-- One iteration of the extraction loop over the six-message window:
direct `send … email` messages overwrite the accumulated fields, then a
whole-message affirmative re-reads the fields from the most recent
assistant message of the window. -/
def emailStep (prevA : Option Str) (acc : Str × Str × Str) (m : Msg) :
    Str × Str × Str :=
  let lc := lower m.content
  let acc1 :=
    if containsSub ("send".data) lc &&
        (containsSub ("email".data) lc || containsSub ("mail".data) lc) then
      (match emailAddrScan m.content with
       | some e => e
       | none => acc.1,
       match subjectScan m.content with
       | some x => trimS x
       | none => acc.2.1,
       match bodyScan m.content with
       | some x => trimS x
       | none => acc.2.2)
    else acc
  if affirmEmail lc then
    match prevA with
    | some draft =>
      (match draftToScan draft with
       | some x => trimS x
       | none => acc1.1,
       match draftSubjectScan draft with
       | some x => trimS x
       | none => acc1.2.1,
       match draftBodyScan draft with
       | some x => trimS x
       | none => acc1.2.2)
    | none => acc1
  else acc1

/-- The accumulated `(to, subject, body)` fields of
`extractSendEmailIntent` over the last six messages. -/
def emailScanFields (messages : List Msg) : Str × Str × Str :=
  let recent := lastN 6 messages
  recent.foldl (emailStep (lastAssistantContent recent)) ([], [], [])

/-- `extractSendEmailIntent` from the source: succeed only when recipient
and subject are both non-empty; an empty body is replaced by the
`Regarding: {subject}` template. -/
def extractSendEmailIntent (messages : List Msg) : Option SendEmailParams :=
  let r := emailScanFields messages
  if r.1 ≠ [] ∧ r.2.1 ≠ [] then
    some ⟨r.1, r.2.1,
      if r.2.2 = [] then ("Regarding: ".data) ++ r.2.1 else r.2.2⟩
  else none

/-!
Create-event intent extraction (`extractCreateEventIntent`).
-/

/-- Optional case-insensitive literal alternatives with backtracking. -/
def optAltsCI {β : Type} (k : Str → Option β) : List Str → Str → Option β
  | [], s => k s
  | a :: rest, s =>
    match dropPrefixCI a s with
    | some s' => (k s').orElse (fun _ => optAltsCI k rest s)
    | none => optAltsCI k rest s

/-- The `(?:january|…|december|today|tomorrow)` alternation of the
create-intent test and of the action/before-date patterns. -/
def monthRelAlts : List (Str × Unit) :=
  [(("january".data), ()), (("february".data), ()), (("march".data), ()),
   (("april".data), ()), (("may".data), ()), (("june".data), ()),
   (("july".data), ()), (("august".data), ()), (("september".data), ()),
   (("october".data), ()), (("november".data), ()), (("december".data), ()),
   (("today".data), ()), (("tomorrow".data), ())]

/-- `/\b(january|…|december|today|tomorrow)\b/i.test(content)`. -/
def monthOrRelTest (s : Str) : Bool :=
  (scanFrom (fun prev t =>
    if boundaryBefore prev then
      altFirstCI (fun _ t1 => if boundaryAfter t1 then some () else none)
        monthRelAlts t
    else none) none s).isSome

/-- The `hasCreateIntent` test of `extractCreateEventIntent` (on the
lower-cased content). -/
def hasCreateIntent (content : Str) : Bool :=
  (containsSub ("create".data) content || containsSub ("add".data) content ||
    containsSub ("schedule".data) content || containsSub ("make".data) content ||
    containsSub ("set".data) content || containsSub ("put".data) content ||
    containsSub ("new event".data) content || containsSub ("remind me".data) content) &&
  (containsSub ("event".data) content || containsSub ("meeting".data) content ||
    containsSub ("appointment".data) content || containsSub ("reminder".data) content ||
    containsSub ("calendar".data) content || monthOrRelTest content)

/-- Capture class `[^"'\n,]` of the title and location patterns. -/
def titleCls (c : Char) : Bool :=
  !(c == '"' || c == '\'' || c == '\n' || c == ',')

/-- Lazy class-restricted capture: after at least one class character, stop
at the first position where the terminator matches. -/
def lazyClsCapGo (cls : Char → Bool) (term : Str → Bool) (acc : Str) :
    Str → Option Str
  | [] => if term [] then some acc.reverse else none
  | c :: cs =>
    if term (c :: cs) then some acc.reverse
    else if cls c then lazyClsCapGo cls term (c :: acc) cs
    else none

/-- Terminator `["']?\s*(?:on|at|in|for|$)` of the title pattern. -/
def titleTerm (s : Str) : Bool :=
  (optCharC ['"', '\''] (fun s1 =>
    wsStar (fun s2 =>
      (altFirstCI (fun _ _ => some ())
        [(("on".data), ()), (("at".data), ()), (("in".data), ()),
         (("for".data), ())] s2).orElse
        (fun _ => if s2.isEmpty then some () else none)) s1) s).isSome

/-- First match of the explicit-title pattern
`(?:called|titled|named|for|about|event)\s*[:\-]?\s*["']?([^"'\n,]+?)["']?\s*(?:on|at|in|for|$)`,
returning the raw capture. -/
def titleScan (s : Str) : Option Str :=
  scanFrom (fun _ t =>
    altFirstCI (fun _ t1 =>
      wsStar (fun t2 =>
        optCharC [':', '-'] (fun t3 =>
          wsStar (fun t4 =>
            optCharC ['"', '\''] (fun t5 =>
              match t5 with
              | c :: cs =>
                if titleCls c then lazyClsCapGo titleCls titleTerm [c] cs else none
              | [] => none) t4) t3) t2) t1)
      [(("called".data), ()), (("titled".data), ()), (("named".data), ()),
       (("for".data), ()), (("about".data), ()), (("event".data), ())] t)
    none s

/-- Terminator `(?:on|at|in|,|\s+(?:january|…|tomorrow))` of the action
pattern. -/
def actionTerm (s : Str) : Bool :=
  (altFirstCI (fun _ _ => some ())
    [(("on".data), ()), (("at".data), ()), (("in".data), ())] s).isSome ||
  (match s with
   | ',' :: _ => true
   | _ => false) ||
  (wsPlus (fun s2 => altFirstCI (fun _ _ => some ()) monthRelAlts s2) s).isSome

/-- First match of the action pattern
`(?:event|reminder|meeting)[,:]?\s+(.+?)(?:on|at|in|,|\s+(?:january|…|tomorrow))`,
returning the raw capture (the `.` class excludes newlines). -/
def actionScan (s : Str) : Option Str :=
  scanFrom (fun _ t =>
    altFirstCI (fun _ t1 =>
      optCharC [',', ':'] (fun t2 =>
        wsPlus (fun t3 =>
          match t3 with
          | c :: cs =>
            if c == '\n' then none
            else lazyClsCapGo (fun d => !(d == '\n')) actionTerm [c] cs
          | [] => none) t2) t1)
      [(("event".data), ()), (("reminder".data), ()), (("meeting".data), ())] t)
    none s

/-- Terminator `\s*(?:on|at|in|for)?\s*(?:january|…|tomorrow|\d{4})` of the
before-date pattern. -/
def beforeDateTerm (s : Str) : Bool :=
  (wsStar (fun s1 =>
    optAltsCI (fun s2 =>
      wsStar (fun s3 =>
        (altFirstCI (fun _ _ => some ()) monthRelAlts s3).orElse
          (fun _ => digits4 (fun _ _ => some ()) s3)) s2)
      [("on".data), ("at".data), ("in".data), ("for".data)] s1) s).isSome

/-- First match of the before-date pattern
`(.+?)\s*(?:on|at|in|for)?\s*(?:january|…|tomorrow|\d{4})`, returning the
raw capture. -/
def beforeDateScan (s : Str) : Option Str :=
  scanFrom (fun _ t =>
    match t with
    | c :: cs =>
      if c == '\n' then none
      else lazyClsCapGo (fun d => !(d == '\n')) beforeDateTerm [c] cs
    | [] => none) none s

/-- The anchored prefix strip
`^(?:create|add|schedule|make|set|put|new)\s*(?:an?)?\s*(?:event|meeting|appointment|reminder)?\s*[,:]?\s*`
(`String.replace` with the empty string: drop the match when the pattern
matches at the start, otherwise keep the string unchanged). -/
def stripCreateVerb (s : Str) : Str :=
  match altFirstCI (fun _ s1 =>
      wsStar (fun s2 =>
        optAltsCI (fun s3 =>
          wsStar (fun s4 =>
            optAltsCI (fun s5 =>
              wsStar (fun s6 =>
                optCharC [',', ':'] (fun s7 =>
                  wsStar (fun s8 => some s8) s7) s6) s5)
              [("event".data), ("meeting".data), ("appointment".data),
               ("reminder".data)] s4) s3)
          [("an".data), ("a".data)] s2) s1)
    [(("create".data), ()), (("add".data), ()), (("schedule".data), ()),
     (("make".data), ()), (("set".data), ()), (("put".data), ()),
     (("new".data), ())] s with
  | some rest => rest
  | none => s

/-- `replace(/[,.]$/, '')`: drop one trailing comma or period. -/
def stripTrailing (s : Str) : Str :=
  match s.getLast? with
  | some c => if c == ',' || c == '.' then s.dropLast else s
  | none => s

/-- ASCII upper-casing of the first character
(`charAt(0).toUpperCase() + slice(1)`). -/
def capFirst (s : Str) : Str :=
  match s with
  | c :: cs =>
    (if 'a' ≤ c ∧ c ≤ 'z' then Char.ofNat (c.toNat - 32) else c) :: cs
  | [] => []

/-- Terminator `["']?\s*(?:on|at\s+\d|$)` of the location pattern. -/
def locTerm (s : Str) : Bool :=
  (optCharC ['"', '\''] (fun s1 =>
    wsStar (fun s2 =>
      (match dropPrefixCI ("on".data) s2 with
       | some _ => some ()
       | none =>
         match dropPrefixCI ("at".data) s2 with
         | some s3 =>
           wsPlus (fun s4 =>
             match s4 with
             | d :: _ => if isDigitC d then some () else none
             | [] => none) s3
         | none => none).orElse
        (fun _ => if s2.isEmpty then some () else none)) s1) s).isSome

/-- First match of the location pattern
`(?:at|in|location)[:\s]+["']?([^"'\n,]+?)["']?\s*(?:on|at\s+\d|$)`,
returning the raw capture. -/
def locationScan (s : Str) : Option Str :=
  scanFrom (fun _ t =>
    altFirstCI (fun _ t1 =>
      clsPlus isColonSpace (fun t2 =>
        optCharC ['"', '\''] (fun t3 =>
          match t3 with
          | c :: cs =>
            if titleCls c then lazyClsCapGo titleCls locTerm [c] cs else none
          | [] => none) t2) t1)
      [(("at".data), ()), (("in".data), ()), (("location".data), ())] t)
    none s

/-- The location filter `\d{1,2}(?::\d{2})?\s*(am|pm)?` matches somewhere
in a string iff the string contains a digit (everything after the first
digit is optional). -/
def containsDigit (s : Str) : Bool := s.any isDigitC

/-- `CreateEventParams` of the source (`start`/`end` as `startTs`/`endTs`;
an absent `allDay` is modelled as `false`, matching its falsy reads; the
`description` field is never set by the extractor and is omitted). -/
structure CreateEventParams where
  summary : Str
  startTs : Str
  endTs : Str
  allDay : Bool
  location : Option Str
deriving DecidableEq

/-- The per-message body of the extraction loop: a user message with
create intent yields an intent when a title and a date are both found. -/
def eventFromMsg (now : Int) (m : Msg) : Option CreateEventParams :=
  if m.role == userRole then
    let content := lower m.content
    if hasCreateIntent content then
      let s1 :=
        match titleScan m.content with
        | some c => trimS c
        | none => []
      let s2 :=
        if s1 = [] then
          match actionScan m.content with
          | some c => trimS c
          | none => []
        else s1
      let s3 :=
        if s2 = [] then
          match beforeDateScan m.content with
          | some c => trimS (stripCreateVerb c)
          | none => []
        else s2
      let summary := if s3 = [] then [] else capFirst (trimS (stripTrailing s3))
      let location :=
        match locationScan m.content with
        | some cap => if containsDigit cap then [] else trimS cap
        | none => []
      match parseFlexibleDate now content with
      | some di =>
        if summary ≠ [] then
          some ⟨summary, di.startTs, di.endTs, di.allDay,
            if location = [] then none else some location⟩
        else none
      | none => none
    else none
  else none

/-- `^(yes|create it|go ahead|confirm|do it|ok|okay|sure|please|yep|yeah)\s*[.!]?$`
on the lower-cased, trimmed content. -/
def affirmEvent (s : Str) : Bool :=
  (altFirst (fun _ rest =>
      wsStar (fun r2 =>
        optCharC ['.', '!'] (fun r3 => if r3.isEmpty then some () else none) r2)
        rest)
    [(("yes".data), ()), (("create it".data), ()), (("go ahead".data), ()),
     (("confirm".data), ()), (("do it".data), ()), (("ok".data), ()),
     (("okay".data), ()), (("sure".data), ()), (("please".data), ()),
     (("yep".data), ()), (("yeah".data), ())] s).isSome

/-- First match of `\*\*(.+?)\*\*`, returning the raw capture. -/
def boldScan (s : Str) : Option Str :=
  scanFrom (fun _ t =>
    match t with
    | '*' :: '*' :: rest =>
      (match rest with
       | c :: cs =>
         if c == '\n' then none
         else
           lazyClsCapGo (fun d => !(d == '\n'))
             (fun u => startsWith ('*' :: '*' :: []) u) [c] cs
       | [] => none)
    | _ => none) none s

/-- First match of `(?:Title|Event)[:\s]+(.+?)(?:\n|$)` (case-insensitive),
returning the raw capture. -/
def titleLineScan (s : Str) : Option Str :=
  scanFrom (fun _ t =>
    altFirstCI (fun _ t1 =>
      clsPlus isColonSpace (fun t2 =>
        match t2 with
        | c :: cs =>
          if c == '\n' then none
          else
            lazyClsCapGo (fun d => !(d == '\n'))
              (fun u =>
                match u with
                | [] => true
                | d :: _ => d == '\n') [c] cs
        | [] => none) t1)
      [(("title".data), ()), (("event".data), ())] t) none s

/-- The calendar glyph the confirmation branch looks for. -/
def calendarGlyph : Str := "📅".data

/-- The draft-confirmation branch of `extractCreateEventIntent`. -/
def eventConfirm (now : Int) (recent : List Msg) : Option CreateEventParams :=
  match lastUserContent recent with
  | none => none
  | some lc0 =>
    if affirmEvent (trimS (lower lc0)) then
      match lastAssistantContent recent with
      | some draft =>
        if containsSub calendarGlyph draft ||
            containsSub ("event".data) (lower draft) then
          let summary :=
            match (boldScan draft).orElse (fun _ => titleLineScan draft) with
            | some c => trimS c
            | none => []
          match parseFlexibleDate now (lower draft) with
          | some di =>
            if summary ≠ [] then
              some ⟨summary, di.startTs, di.endTs, di.allDay, none⟩
            else none
          | none => none
        else none
      | none => none
    else none

/-- `extractCreateEventIntent` from the source: the first user message in
the six-message window with create intent, title and date wins; otherwise
a trailing affirmative re-parses the most recent assistant draft. -/
def extractCreateEventIntent (now : Int) (messages : List Msg) :
    Option CreateEventParams :=
  let recent := lastN 6 messages
  match recent.findSome? (eventFromMsg now) with
  | some p => some p
  | none => eventConfirm now recent

/-!
Duplicate-action guard, credential provider and dispatcher.
-/

/-- `hasProcessedAction` from the source: some assistant message with
non-empty content contains, lower-cased, both the completion marker of the
action type and the identifier text. -/
def hasProcessedAction (messages : List Msg) (ty : Str) (identifier : Str) :
    Bool :=
  messages.any (fun m =>
    m.role == assistantRole && !m.content.isEmpty &&
      ((ty == ("calendar".data) &&
          containsSub ("event created".data) (lower m.content) &&
          containsSub (lower identifier) (lower m.content)) ||
       (ty == ("email".data) &&
          containsSub ("email sent".data) (lower m.content) &&
          containsSub (lower identifier) (lower m.content))))

/-- A `google_tokens` row for one `(user, service)` pair. -/
structure TokenRecord where
  recId : Str
  accessToken : Str
  refreshToken : Option Str
  expiresAt : Int
  email : Str
deriving DecidableEq

/-- The row update `getValidToken` persists after a successful refresh. -/
structure TokenUpdate where
  recId : Str
  accessToken : Str
  expiresAt : Int
deriving DecidableEq

/-- `getValidToken` from the source.  `rec?` is the row the `(user,
service)` lookup returned, `nowMs` the current time in milliseconds, and
`refreshOutcome` the value `refreshAccessToken` would return for a given
refresh token (`none` for a non-ok response or missing field).  Returns
the `{token, email}` result and the persisted update, if any.  JS
truthiness of the stored refresh token and of the refreshed token
(empty string falsy) is modelled explicitly. -/
def getValidToken (rec? : Option TokenRecord) (nowMs : Int)
    (refreshOutcome : Str → Option Str) :
    Option (Str × Str) × Option TokenUpdate :=
  match rec? with
  | none => (none, none)
  | some d =>
    let isExpired := decide (d.expiresAt < nowMs)
    let refreshTruthy :=
      match d.refreshToken with
      | some rt => !rt.isEmpty
      | none => false
    if isExpired && refreshTruthy then
      match d.refreshToken with
      | some rt =>
        match refreshOutcome rt with
        | some t =>
          if !t.isEmpty then
            (some (t, d.email), some ⟨d.recId, t, nowMs + 3600 * 1000⟩)
          else (none, none)
        | none => (none, none)
      | none => (none, none)
    else (some (d.accessToken, d.email), none)

/-- A connected service: the result of a successful `getValidToken`. -/
structure Conn where
  token : Str
  email : Str

/-- The result of the `sendEmail` collaborator call. -/
structure SendOutcome where
  success : Bool
  message : Str

/-- The result of the `createEvent` collaborator call. -/
inductive CreateOutcome where
  | ok (summary startTs endTs htmlLink : Str)
  | err (e : Str)

/-- External collaborators and rendering of the dispatcher, passed as
oracles: outcomes of the two side-effecting calls, the rendered read-fetch
context tables (fetch plus table formatting are external), and
`toLocaleString` display formatting. -/
structure TurnDeps where
  gmail : Option Conn
  calendar : Option Conn
  sendOutcome : SendEmailParams → SendOutcome
  createOutcome : CreateEventParams → CreateOutcome
  emailTable : Str
  calendarTable : Str
  fmtLocale : Str → Str

/-- What one dispatcher turn produced: the side-effecting calls actually
issued (in order) and the prompt blocks. -/
structure TurnResult where
  emailCalls : List SendEmailParams
  eventCalls : List CreateEventParams
  actionResult : Str
  emailContext : Str
  calendarContext : Str

/-- The success block appended after `sendEmail`. -/
def emailSentBlock (i : SendEmailParams) (acct : Str) : Str :=
  ("\n\n✅ EMAIL SENT SUCCESSFULLY!\nTo: ".data) ++ i.toAddr ++
    ("\nSubject: ".data) ++ i.subject ++
    ("\n\nThe email has been sent from your Gmail account (".data) ++ acct ++
    (").".data)

/-- The failure block appended after a failed `sendEmail`. -/
def emailFailBlock (msg : Str) : Str :=
  ("\n\n❌ Failed to send email: ".data) ++ msg

/-- The success block appended after `createEvent`. -/
def eventCreatedBlock (su st en link acct : Str) (fmt : Str → Str) : Str :=
  ("\n\n✅ EVENT CREATED SUCCESSFULLY!\n📅 **".data) ++ su ++ ("**\n🕐 ".data) ++
    fmt st ++ (" - ".data) ++ fmt en ++
    ("\n🔗 [View in Google Calendar](".data) ++ link ++
    (")\n\nThe event has been added to your Google Calendar (".data) ++ acct ++
    (").".data)

/-- The failure block appended after a failed `createEvent`. -/
def eventFailBlock (e : Str) : Str :=
  ("\n\n❌ Failed to create event: ".data) ++ e

/-- The not-connected notice for Gmail. -/
def gmailNotice : Str :=
  ("\n\nNote: The user asked about emails but Gmail is not connected. Suggest they connect Gmail using the connectors menu.".data)

/-- The not-connected notice for Google Calendar. -/
def calendarNotice : Str :=
  ("\n\nNote: The user asked about calendar/events but Google Calendar is not connected. Suggest they connect Google Calendar using the connectors menu.".data)

/-- The per-turn dispatch of the `serve` handler (its pure core): per
service, extract an intent, consult the duplicate guard, issue at most one
side-effecting call and build the action-result block; otherwise run the
keyword gate and inject the fetched context or a not-connected notice. -/
def handleTurn (now : Int) (messages : List Msg) (d : TurnDeps) : TurnResult :=
  let sendIntent := extractSendEmailIntent messages
  let emailPart : List SendEmailParams × Str :=
    match d.gmail with
    | some g =>
      match sendIntent with
      | some i =>
        if !hasProcessedAction messages ("email".data)
            (i.toAddr ++ ':' :: i.subject) then
          let r := d.sendOutcome i
          ([i], if r.success then emailSentBlock i g.email
                else emailFailBlock r.message)
        else ([], [])
      | none => ([], [])
    | none => ([], [])
  let emailContext :=
    match d.gmail with
    | some _ =>
      if shouldFetchEmails messages && sendIntent.isNone then d.emailTable
      else []
    | none => if shouldFetchEmails messages then gmailNotice else []
  let createIntent := extractCreateEventIntent now messages
  let calendarPart : List CreateEventParams × Str :=
    match d.calendar with
    | some c =>
      match createIntent with
      | some i =>
        if !hasProcessedAction messages ("calendar".data)
            (i.summary ++ ':' :: i.startTs) then
          ([i],
           match d.createOutcome i with
           | CreateOutcome.ok su st en link =>
             eventCreatedBlock su st en link c.email d.fmtLocale
           | CreateOutcome.err e => eventFailBlock e)
        else ([], [])
      | none => ([], [])
    | none => ([], [])
  let calendarContext :=
    match d.calendar with
    | some _ =>
      if shouldFetchCalendar messages && createIntent.isNone then d.calendarTable
      else []
    | none => if shouldFetchCalendar messages then calendarNotice else []
  ⟨emailPart.1, calendarPart.1, emailPart.2 ++ calendarPart.2,
    emailContext, calendarContext⟩

/-- The transcript of spec scenario 2. -/
def scenario2Msgs : List Msg :=
  [⟨userRole, ("send an email to a@b.com subject: Hello body: Hi there".data)⟩]

/-- The dispatcher dependencies used for the scenario-2 run: gmail
connected, the send call succeeding, calendar not connected. -/
def scenario2Deps : TurnDeps :=
  ⟨some ⟨("tok".data), ("me@gmail.com".data)⟩, none, fun _ => ⟨true, []⟩,
    fun _ => CreateOutcome.err [], [], [], fun s => s⟩

/-- Modelled from the amended claim wording: the relative words take
precedence (today, tomorrow, next week), and otherwise the effective
priority among the date patterns is first-success in the order
ISO, Month-Day-Year, Month-Year, Day-Month-Year, MM/DD/YYYY. -/
def amendedResolve (now : Int) (content : Str) : Option Int :=
  if containsSub ("today".data) content then some now
  else if containsSub ("tomorrow".data) content then some (now + 1440)
  else if containsSub ("next week".data) content then some (now + 7 * 1440)
  else
    (((((match isoScan content with
         | some (yr, mo, d) => some (makeJsDate (yr : Int) ((mo : Int) - 1) (d : Int))
         | none => none).orElse (fun _ =>
        match monthDayYearScan content with
        | some (mo, d, yr) => some (makeJsDate (yr : Int) (mo : Int) (d : Int))
        | none => none)).orElse (fun _ =>
        match monthYearScan content with
        | some (mo, yr) => some (makeJsDate (yr : Int) (mo : Int) 1)
        | none => none)).orElse (fun _ =>
        match dayMonthYearScan content with
        | some (d, mo, yr) => some (makeJsDate (yr : Int) (mo : Int) (d : Int))
        | none => none)).orElse (fun _ =>
        match usScan content with
        | some (mo, d, yr) => some (makeJsDate (yr : Int) ((mo : Int) - 1) (d : Int))
        | none => none)).map (fun days => days * 1440)

/-- The transcript of spec scenario 4. -/
def scenario4Msgs : List Msg :=
  [⟨userRole, ("create an event called Launch Review on May 15 2026 at 3pm".data)⟩]

/-- Characters of a formatted date string: decimal digits and dashes. -/
def digitOrDash (c : Char) : Prop := isDigitC c = true ∨ c = '-'

theorem startsWith_append_self (k t : Str) : startsWith k (k ++ t) = true := by
  induction k with
  | nil => rfl
  | cons c cs ih => simp [startsWith, ih]

theorem containsSub_append (k x y : Str) : containsSub k (x ++ k ++ y) = true := by
  induction x with
  | nil =>
      cases k with
      | nil => cases y <;> simp [containsSub, List.isEmpty, startsWith]
      | cons c cs => simpa [containsSub] using Or.inl (startsWith_append_self _ _)
  | cons c cs ih => simpa [containsSub] using Or.inr ih

theorem mem_of_startsWith {k s : Str} (h : startsWith k s = true) :
    ∀ x ∈ k, x ∈ s := by
  induction k generalizing s with
  | nil => intro x hx; cases hx
  | cons c cs ih =>
      cases s with
      | nil => cases h
      | cons d ds =>
          simp only [startsWith, Bool.and_eq_true, beq_iff_eq] at h
          intro x hx
          rcases List.mem_cons.mp hx with rfl | hx
          · exact h.1 ▸ List.mem_cons_self _ _
          · exact List.mem_cons_of_mem _ (ih h.2 x hx)

theorem mem_of_containsSub {k t : Str} (h : containsSub k t = true) :
    ∀ x ∈ k, x ∈ t := by
  induction t with
  | nil =>
      intro x hx
      simp only [containsSub, List.isEmpty_iff] at h
      subst h; cases hx
  | cons c cs ih =>
      simp only [containsSub, Bool.or_eq_true] at h
      intro x hx
      rcases h with h | h
      · exact mem_of_startsWith h x hx
      · exact List.mem_cons_of_mem _ (ih h x hx)

theorem lower_append (a b : Str) : lower (a ++ b) = lower a ++ lower b :=
  List.map_append _ _ _

/-- C7 helper: each stored keyword is already lower-case, so lowering is a
no-op on it. -/
theorem keywords_lower_fixed :
    (∀ k ∈ emailKeywords, lower k = k) ∧ (∀ k ∈ calendarKeywords, lower k = k) := by
  constructor <;> · intro k hk; fin_cases hk <;> rfl

theorem gateContent_insert {keys : List Str} (c₁ c₂ k : Str) (hk : k ∈ keys)
    (hlow : lower k = k) : gateContent keys (c₁ ++ k ++ c₂) = true := by
  refine List.any_eq_true.mpr ⟨k, hk, ?_⟩
  have : lower (c₁ ++ k ++ c₂) = lower c₁ ++ k ++ lower c₂ := by
    rw [lower_append, lower_append, hlow]
  rw [this]
  exact containsSub_append _ _ _

/-- C7: both keyword gates depend only on the most recent user-authored
message: they are false when no user message exists, they are
case-insensitive (they only look at the lower-cased content), and inserting
a matching keyword into the message cannot turn a true result false. -/
theorem C7_keyword_gates :
    (∀ ms ms', lastUserContent ms = lastUserContent ms' →
      shouldFetchEmails ms = shouldFetchEmails ms' ∧
        shouldFetchCalendar ms = shouldFetchCalendar ms') ∧
    (∀ ms, lastUserContent ms = none →
      shouldFetchEmails ms = false ∧ shouldFetchCalendar ms = false) ∧
    (∀ ms c, lastUserContent ms = some c →
      shouldFetchEmails ms = gateContent emailKeywords c ∧
        shouldFetchCalendar ms = gateContent calendarKeywords c) ∧
    (∀ c c', lower c = lower c' →
      gateContent emailKeywords c = gateContent emailKeywords c' ∧
        gateContent calendarKeywords c = gateContent calendarKeywords c') ∧
    (∀ c₁ c₂ k, k ∈ emailKeywords →
      gateContent emailKeywords (c₁ ++ c₂) = true →
        gateContent emailKeywords (c₁ ++ k ++ c₂) = true) ∧
    (∀ c₁ c₂ k, k ∈ calendarKeywords →
      gateContent calendarKeywords (c₁ ++ c₂) = true →
        gateContent calendarKeywords (c₁ ++ k ++ c₂) = true) := by
  refine ⟨?_, ?_, ?_, ?_, ?_, ?_⟩
  · intro ms ms' h
    constructor <;> simp only [shouldFetchEmails, shouldFetchCalendar, h]
  · intro ms h
    constructor <;> simp only [shouldFetchEmails, shouldFetchCalendar, h]
  · intro ms c h
    constructor <;> simp only [shouldFetchEmails, shouldFetchCalendar, h]
  · intro c c' h
    constructor <;> simp only [gateContent, h]
  · intro c₁ c₂ k hk _
    exact gateContent_insert c₁ c₂ k hk (keywords_lower_fixed.1 k hk)
  · intro c₁ c₂ k hk _
    exact gateContent_insert c₁ c₂ k hk (keywords_lower_fixed.2 k hk)

/-- C7 witness: the theorem applied at concrete inputs. -/
theorem C7_keyword_gates_witness :
    (shouldFetchEmails [⟨userRole, ("Check My INBOX please".data)⟩] =
      gateContent emailKeywords ("Check My INBOX please".data)) ∧
    gateContent emailKeywords (("show my ".data) ++ ("inbox".data) ++ (" now".data)) = true ∧
    gateContent calendarKeywords (("today ".data) ++ ("agenda".data) ++ ("?".data)) = true ∧
    shouldFetchEmails [⟨assistantRole, ("inbox".data)⟩] = false :=
  ⟨(C7_keyword_gates.2.2.1 _ _ (by decide)).1,
   C7_keyword_gates.2.2.2.2.1 ("show my ".data) (" now".data) ("inbox".data)
     (by decide) (by decide),
   C7_keyword_gates.2.2.2.2.2 ("today ".data) ("?".data) ("agenda".data)
     (by decide) (by decide),
   (C7_keyword_gates.2.1 _ (by decide)).1⟩

theorem doeSplit_spec (z : Int) :
    146097 * (doeSplit z).1 + (doeSplit z).2 = z + 719468 ∧
      0 ≤ (doeSplit z).2 ∧ (doeSplit z).2 < 146097 := by
  unfold doeSplit; dsimp only; omega

theorem yearParts_spec (doe : Int) (h0 : 0 ≤ doe) (h1 : doe < 146097) :
    0 ≤ (yearParts doe).1 ∧ (yearParts doe).1 ≤ 3 ∧
    0 ≤ (yearParts doe).2.1 ∧ (yearParts doe).2.1 ≤ 24 ∧
    0 ≤ (yearParts doe).2.2.1 ∧ (yearParts doe).2.2.1 ≤ 3 ∧
    0 ≤ (yearParts doe).2.2.2 ∧ (yearParts doe).2.2.2 ≤ 365 ∧
    36524 * (yearParts doe).1 + 1461 * (yearParts doe).2.1 +
      365 * (yearParts doe).2.2.1 + (yearParts doe).2.2.2 = doe := by
  unfold yearParts; dsimp only; split_ifs <;> omega

theorem monthDay_spec (doy : Int) (h0 : 0 ≤ doy) (h1 : doy ≤ 365) :
    1 ≤ (monthDay doy).1 ∧ (monthDay doy).1 ≤ 12 ∧
      (153 * ((monthDay doy).1 + (if 2 < (monthDay doy).1 then -3 else 9)) + 2) / 5 +
        (monthDay doy).2 - 1 = doy := by
  unfold monthDay; dsimp only; split_ifs <;> omega

theorem civil_roundtrip (z : Int) :
    daysFromCivil (civilFromDays z).1 (civilFromDays z).2.1 (civilFromDays z).2.2 = z := by
  have hA := doeSplit_spec z
  have hB := yearParts_spec (doeSplit z).2 hA.2.1 hA.2.2
  have hC := monthDay_spec (yearParts (doeSplit z).2).2.2.2 hB.2.2.2.2.2.2.1
    hB.2.2.2.2.2.2.2.1
  unfold civilFromDays daysFromCivil
  dsimp only
  set a := (doeSplit z).1 with ha
  set b := (yearParts (doeSplit z).2).1 with hb
  set c := (yearParts (doeSplit z).2).2.1 with hc
  set d := (yearParts (doeSplit z).2).2.2.1 with hd
  set g := (yearParts (doeSplit z).2).2.2.2 with hg
  obtain ⟨hb0, hb1, hc0, hc1, hd0, hd1, hg0, hg1, hsum⟩ := hB
  split_ifs at hC ⊢ <;>
  · first
    | (have hI : (a * 400 + (b * 100 + c * 4 + d) + 1 - 1) / 400 = a := by omega
       have hJ : (a * 400 + (b * 100 + c * 4 + d) + 1 - 1 -
           (a * 400 + (b * 100 + c * 4 + d) + 1 - 1) / 400 * 400) / 4 = b * 25 + c := by
         omega
       have hK : (a * 400 + (b * 100 + c * 4 + d) + 1 - 1 -
           (a * 400 + (b * 100 + c * 4 + d) + 1 - 1) / 400 * 400) / 100 = b := by
         omega
       omega)
    | (have hI : (a * 400 + (b * 100 + c * 4 + d) + 0 - 0) / 400 = a := by omega
       have hJ : (a * 400 + (b * 100 + c * 4 + d) + 0 - 0 -
           (a * 400 + (b * 100 + c * 4 + d) + 0 - 0) / 400 * 400) / 4 = b * 25 + c := by
         omega
       have hK : (a * 400 + (b * 100 + c * 4 + d) + 0 - 0 -
           (a * 400 + (b * 100 + c * 4 + d) + 0 - 0) / 400 * 400) / 100 = b := by
         omega
       omega)

/-!
Claim theorems.
-/

/-- C2: for every single incoming chat request, the dispatcher issues the
side-effecting sendMessage call at most once and the side-effecting
createEvent call at most once, whatever the transcript contains. -/
theorem C2_at_most_once_per_turn (now : Int) (messages : List Msg) (d : TurnDeps) :
    (handleTurn now messages d).emailCalls.length ≤ 1 ∧
      (handleTurn now messages d).eventCalls.length ≤ 1 := by
  unfold handleTurn
  dsimp only
  constructor <;> · (repeat' split) <;> simp

theorem containsSub_ne_nil {pat t : Str} (hp : pat ≠ [])
    (h : containsSub pat t = true) : t ≠ [] := by
  intro ht
  subst ht
  cases pat with
  | nil => exact hp rfl
  | cons c cs => simp [containsSub, List.isEmpty] at h

theorem lower_eq_nil {s : Str} (h : lower s = []) : s = [] := by
  cases s with
  | nil => rfl
  | cons c cs => simp [lower] at h

/-- C9: the send-email extractor returns an intent only when both the
extracted recipient and subject are non-empty, and when no body text was
accumulated the returned body is the `Regarding: {subject}` template. -/
theorem C9_email_intent_validity (messages : List Msg) (i : SendEmailParams)
    (h : extractSendEmailIntent messages = some i) :
    i.toAddr ≠ [] ∧ i.subject ≠ [] ∧
      ((emailScanFields messages).2.2 = [] →
        i.body = ("Regarding: ".data) ++ i.subject) := by
  unfold extractSendEmailIntent at h
  dsimp only at h
  split at h
  case isTrue hc =>
    injection h with h
    subst h
    refine ⟨hc.1, hc.2, fun hb => ?_⟩
    simp [hb]
  case isFalse hc => cases h

/-- C9 witness: the theorem applied to a transcript with a recipient and a
subject but no body text. -/
theorem C9_email_intent_validity_witness :
    (("x@y.zz".data) : Str) ≠ [] ∧ (("Hi".data) : Str) ≠ [] ∧
      ((emailScanFields [⟨userRole, ("send mail to x@y.zz subject: Hi".data)⟩]).2.2 = [] →
        (("Regarding: Hi".data) : Str) = ("Regarding: ".data) ++ ("Hi".data)) :=
  C9_email_intent_validity [⟨userRole, ("send mail to x@y.zz subject: Hi".data)⟩]
    ⟨("x@y.zz".data), ("Hi".data), ("Regarding: Hi".data)⟩ (by decide)

/-- C1: (a, b) a transcript with an assistant message containing the
completion marker and the identity-key text makes `hasProcessedAction`
return true for that key (calendar and email variants); (c, d) it returns
false for a key whose text occurs in no completion-marked assistant
message (calendar and email variants); (e) when the guard reports the
extracted create-event intent as already processed, the dispatcher does
not invoke createEvent. -/
theorem C1_duplicate_guard :
    (∀ messages m key, m ∈ messages → m.role = assistantRole →
      containsSub ("event created".data) (lower m.content) = true →
      containsSub (lower key) (lower m.content) = true →
      hasProcessedAction messages ("calendar".data) key = true) ∧
    (∀ messages m key, m ∈ messages → m.role = assistantRole →
      containsSub ("email sent".data) (lower m.content) = true →
      containsSub (lower key) (lower m.content) = true →
      hasProcessedAction messages ("email".data) key = true) ∧
    (∀ messages key,
      (∀ m ∈ messages, m.role = assistantRole →
        containsSub ("event created".data) (lower m.content) = true →
        containsSub (lower key) (lower m.content) = false) →
      hasProcessedAction messages ("calendar".data) key = false) ∧
    (∀ messages key,
      (∀ m ∈ messages, m.role = assistantRole →
        containsSub ("email sent".data) (lower m.content) = true →
        containsSub (lower key) (lower m.content) = false) →
      hasProcessedAction messages ("email".data) key = false) ∧
    (∀ now messages d i, extractCreateEventIntent now messages = some i →
      hasProcessedAction messages ("calendar".data)
        (i.summary ++ ':' :: i.startTs) = true →
      (handleTurn now messages d).eventCalls = []) := by
  refine ⟨?_, ?_, ?_, ?_, ?_⟩
  · intro messages m key hm hrole hmark hkey
    refine List.any_eq_true.mpr ⟨m, hm, ?_⟩
    have hne : m.content ≠ [] := by
      intro hnil
      exact containsSub_ne_nil (by decide) hmark (by rw [hnil]; rfl)
    simp [hrole, hmark, hkey, List.isEmpty_iff, hne]
  · intro messages m key hm hrole hmark hkey
    refine List.any_eq_true.mpr ⟨m, hm, ?_⟩
    have hne : m.content ≠ [] := by
      intro hnil
      exact containsSub_ne_nil (by decide) hmark (by rw [hnil]; rfl)
    simp [hrole, hmark, hkey, List.isEmpty_iff, hne]
  · intro messages key hnone
    rw [hasProcessedAction]
    rw [List.any_eq_false]
    intro m hm
    simp only [Bool.and_eq_true, Bool.or_eq_true, beq_iff_eq]
    intro hcontr
    obtain ⟨⟨hrole, _⟩, hdisj⟩ := hcontr
    rcases hdisj with ⟨⟨_, hmark⟩, hkey⟩ | ⟨⟨hty, _⟩, _⟩
    · rw [hnone m hm hrole hmark] at hkey
      cases hkey
    · cases hty
  · intro messages key hnone
    rw [hasProcessedAction]
    rw [List.any_eq_false]
    intro m hm
    simp only [Bool.and_eq_true, Bool.or_eq_true, beq_iff_eq]
    intro hcontr
    obtain ⟨⟨hrole, _⟩, hdisj⟩ := hcontr
    rcases hdisj with ⟨⟨hty, _⟩, _⟩ | ⟨⟨_, hmark⟩, hkey⟩
    · cases hty
    · rw [hnone m hm hrole hmark] at hkey
      cases hkey
  · intro now messages d i hext hdup
    unfold handleTurn
    dsimp only
    cases hcal : d.calendar with
    | none => rfl
    | some c => rw [hext]; simp [hdup]

/-- C3 counterexample: on the scenario-2 transcript the extractor's
subject is everything after `subject:` up to a comma, period or newline —
`"Hello body: Hi there"` — not the claimed `"Hello"` (the `body:` label is
not a boundary of the subject regex). -/
theorem C3_scenario2_cex :
    extractSendEmailIntent scenario2Msgs =
      some ⟨("a@b.com".data), ("Hello body: Hi there".data), ("Hi there".data)⟩ ∧
    (("Hello body: Hi there".data) : Str) ≠ ("Hello".data) :=
  ⟨by decide, by decide⟩

/-- C3 amended: on the scenario-2 transcript the extractor returns
`{to: "a@b.com", subject: "Hello body: Hi there", body: "Hi there"}`; the
guard reports the action as new, sendMessage is invoked exactly once, and
the appended result block contains `EMAIL SENT` and the recipient
address. -/
theorem C3_scenario2_amended (now : Int) :
    extractSendEmailIntent scenario2Msgs =
      some ⟨("a@b.com".data), ("Hello body: Hi there".data), ("Hi there".data)⟩ ∧
    hasProcessedAction scenario2Msgs ("email".data)
      (("a@b.com".data) ++ ':' :: ("Hello body: Hi there".data)) = false ∧
    (handleTurn now scenario2Msgs scenario2Deps).emailCalls =
      [⟨("a@b.com".data), ("Hello body: Hi there".data), ("Hi there".data)⟩] ∧
    containsSub ("EMAIL SENT".data)
      (handleTurn now scenario2Msgs scenario2Deps).actionResult = true ∧
    containsSub ("a@b.com".data)
      (handleTurn now scenario2Msgs scenario2Deps).actionResult = true :=
  ⟨by decide, by decide, rfl, rfl, rfl⟩

/-- C5 counterexample: on `"may 2026 2027-01-02"` the Month-Year pattern
succeeds first in the claimed order (May 2026, i.e. 2026-05-01), yet the
resolved date is the ISO one — a later pattern in the claimed list
overrode the earlier successful pattern. -/
theorem C5_priority_cex :
    monthYearScan (lower ("may 2026 2027-01-02".data)) = some (4, 2026) ∧
    (parseFlexibleDate 0 ("may 2026 2027-01-02".data)).map DateRange.startTs =
      some ("2027-01-02T20:00:00.000Z".data) ∧
    (("2027-01-02T20:00:00.000Z".data) : Str).take 10 ≠ ("2026-05-01".data) :=
  ⟨by decide, by decide, by decide⟩

/-- C5 amended: the relative words take precedence, and the date-pattern
resolution of `parseFlexibleDate` equals first-success priority
ISO > Month-Day-Year > Month-Year > Day-Month-Year > MM/DD/YYYY (the
sequential overwriting of `targetDate` collapses to this order). -/
theorem C5_priority_amended (now : Int) (content : Str) :
    resolveTargetDate now content = amendedResolve now content := by
  unfold resolveTargetDate amendedResolve patternDate
  split_ifs <;> try rfl
  rcases h1 : monthYearScan content with _ | ⟨mo1, yr1⟩ <;>
  rcases h2 : monthDayYearScan content with _ | ⟨mo2, d2, yr2⟩ <;>
  rcases h3 : dayMonthYearScan content with _ | ⟨d3, mo3, yr3⟩ <;>
  rcases h4 : isoScan content with _ | ⟨yr4, mo4, d4⟩ <;>
  rcases h5 : usScan content with _ | ⟨mo5, d5, yr5⟩ <;>
  simp [h1, h2, h3, h4, h5, Option.orElse]

/-- C8 counterexample: for an expired record with no refresh credential,
`getValidToken` returns the stored (expired) access token, so it does
return a token for an expired credential that could not be refreshed, and
the claimed "none exactly when no record or refresh fails" fails. -/
theorem C8_token_cex :
    getValidToken
      (some ⟨("r1".data), ("stale".data), none, 0, ("a@g.co".data)⟩)
      1000 (fun _ => none) =
      (some (("stale".data), ("a@g.co".data)), none) ∧
    (0 : Int) < 1000 :=
  ⟨by decide, by decide⟩

/-- C8 amended: `getValidToken` returns none exactly when no record exists
or when the record is expired with a truthy refresh credential whose
refresh attempt fails; with an expired record and a successful refresh it
returns and persists the renewed token; with an expired record and no
truthy refresh credential it returns the stored (expired) token. -/
theorem C8_token_amended (rec? : Option TokenRecord) (nowMs : Int)
    (oracle : Str → Option Str) :
    (rec? = none → getValidToken rec? nowMs oracle = (none, none)) ∧
    (∀ d rt t, rec? = some d → d.expiresAt < nowMs → d.refreshToken = some rt →
      rt ≠ [] → oracle rt = some t → t ≠ [] →
      getValidToken rec? nowMs oracle =
        (some (t, d.email), some ⟨d.recId, t, nowMs + 3600 * 1000⟩)) ∧
    (∀ d rt, rec? = some d → d.expiresAt < nowMs → d.refreshToken = some rt →
      rt ≠ [] → (oracle rt = none ∨ oracle rt = some []) →
      getValidToken rec? nowMs oracle = (none, none)) ∧
    (∀ d, rec? = some d →
      (¬ d.expiresAt < nowMs ∨ d.refreshToken = none ∨ d.refreshToken = some []) →
      getValidToken rec? nowMs oracle = (some (d.accessToken, d.email), none)) := by
  refine ⟨?_, ?_, ?_, ?_⟩
  · intro h; subst h; rfl
  · intro d rt t hrec hexp hrt hrtne ho htne
    subst hrec
    unfold getValidToken
    dsimp only
    rw [hrt]
    simp [hexp, List.isEmpty_iff, hrtne, ho, htne]
  · intro d rt hrec hexp hrt hrtne ho
    subst hrec
    unfold getValidToken
    dsimp only
    rw [hrt]
    rcases ho with ho | ho <;>
      simp [hexp, List.isEmpty_iff, hrtne, ho]
  · intro d hrec hcase
    subst hrec
    unfold getValidToken
    dsimp only
    rcases hcase with hc | hc | hc
    · simp [hc]
    · rw [hc]; simp
    · rw [hc]; simp [List.isEmpty]

/-- C8 witness: the amended theorem applied to a concrete expired record
with a successful refresh. -/
theorem C8_token_amended_witness :
    getValidToken
      (some ⟨("r1".data), ("old".data), some ("rf".data), 0, ("a@g.co".data)⟩)
      1000 (fun _ => some ("new".data)) =
      (some (("new".data), ("a@g.co".data)),
        some ⟨("r1".data), ("new".data), 1000 + 3600 * 1000⟩) :=
  (C8_token_amended
      (some ⟨("r1".data), ("old".data), some ("rf".data), 0, ("a@g.co".data)⟩)
      1000 (fun _ => some ("new".data))).2.1
    ⟨("r1".data), ("old".data), some ("rf".data), 0, ("a@g.co".data)⟩
    ("rf".data) ("new".data) rfl (by decide) rfl (by decide) rfl (by decide)

/-- C4 counterexample: the title pattern matches at the word `event` and
lazily captures up to the `on` terminator, so the extracted title is
`"Called Launch Review"`, not the claimed `"Launch Review"`. -/
theorem C4_scenario4_cex :
    extractCreateEventIntent 0 scenario4Msgs =
      some ⟨("Called Launch Review".data), ("2026-05-15T15:00:00.000Z".data),
        ("2026-05-15T16:00:00.000Z".data), false, none⟩ ∧
    (("Called Launch Review".data) : Str) ≠ ("Launch Review".data) :=
  ⟨by decide, by decide⟩

/-- C4 amended: on the scenario-4 transcript the extractor returns the
intent with title `"Called Launch Review"`, start 2026-05-15T15:00, end
2026-05-15T16:00 and a cleared all-day flag (for any current time: the
text has no relative date words). -/
theorem C4_scenario4_amended (now : Int) :
    extractCreateEventIntent now scenario4Msgs =
      some ⟨("Called Launch Review".data), ("2026-05-15T15:00:00.000Z".data),
        ("2026-05-15T16:00:00.000Z".data), false, none⟩ := rfl

theorem digit_toNat {c : Char} (h : isDigitC c = true) :
    48 ≤ c.toNat ∧ c.toNat ≤ 57 := by
  unfold isDigitC at h
  simp only [Bool.and_eq_true, decide_eq_true_eq] at h
  obtain ⟨h1, h2⟩ := h
  rw [Char.le_def] at h1 h2
  exact ⟨h1, h2⟩

theorem isDigitC_false_of_toNat {c : Char} (h : c.toNat < 48 ∨ 57 < c.toNat) :
    isDigitC c = false := by
  cases hb : isDigitC c
  · rfl
  · exact absurd (digit_toNat hb) (by omega)

theorem digit_ne {c x : Char} (h : isDigitC c = true) (hx : isDigitC x = false) :
    c ≠ x := by
  intro he
  subst he
  rw [h] at hx
  cases hx

theorem lcChar_digit {c : Char} (h : isDigitC c = true) : lcChar c = c := by
  have hd := digit_toNat h
  unfold lcChar
  rw [if_neg]
  rintro ⟨h1, _⟩
  rw [Char.le_def] at h1
  have h1' : 65 ≤ c.toNat := h1
  omega

theorem toNat_ofNat_valid {n : Nat} (h : n < 55296) : (Char.ofNat n).toNat = n := by
  unfold Char.ofNat
  rw [dif_pos (Or.inl h)]
  rfl

theorem lcChar_not_digit {c : Char} (h : isDigitC c = false) :
    isDigitC (lcChar c) = false := by
  unfold lcChar
  split
  case isTrue hc =>
    obtain ⟨h1, h2⟩ := hc
    rw [Char.le_def] at h1 h2
    have h1' : 65 ≤ c.toNat := h1
    have h2' : c.toNat ≤ 90 := h2
    apply isDigitC_false_of_toNat
    rw [toNat_ofNat_valid (by omega)]
    omega
  case isFalse => exact h

theorem lcChar_eq_colon {c : Char} (h : lcChar c = ':') : c = ':' := by
  unfold lcChar at h
  split at h
  case isTrue hc =>
    obtain ⟨h1, h2⟩ := hc
    rw [Char.le_def] at h1 h2
    have h1' : 65 ≤ c.toNat := h1
    have h2' : c.toNat ≤ 90 := h2
    have hco := congrArg Char.toNat h
    rw [toNat_ofNat_valid (by omega)] at hco
    have : (':' : Char).toNat = 58 := rfl
    omega
  case isFalse => exact h

theorem isSpaceC_not_digit {c : Char} (h : isSpaceC c = true) :
    isDigitC c = false := by
  unfold isSpaceC at h
  simp only [Bool.or_eq_true, beq_iff_eq] at h
  apply isDigitC_false_of_toNat
  rcases h with ((((h | h) | h) | h) | h) | h <;> subst h <;> decide

theorem digit_not_space {c : Char} (h : isDigitC c = true) :
    isSpaceC c = false := by
  cases hs : isSpaceC c
  · rfl
  · rw [isSpaceC_not_digit hs] at h
    cases h

theorem dropPrefix_sound {p s r : Str} (h : dropPrefix p s = some r) :
    s = p ++ r := by
  induction p generalizing s with
  | nil =>
    simp only [dropPrefix, Option.some.injEq] at h
    simp [h]
  | cons a ps ih =>
    cases s with
    | nil => cases h
    | cons c cs =>
      unfold dropPrefix at h
      split at h
      case isTrue hb =>
        have := ih h
        simp only [List.cons_append, List.cons.injEq]
        exact ⟨(beq_iff_eq.mp hb).symm, this⟩
      case isFalse => cases h

theorem containsSub_of_midseq {pat t : Str} (h : pat <:+: t) :
    containsSub pat t = true := by
  obtain ⟨x, y, hxy⟩ := h
  rw [← hxy]
  exact containsSub_append _ _ _

theorem no_prefix_of_not_infix {pat s u : Str}
    (hs : containsSub pat s = false) (hu : u <:+ s) :
    dropPrefix pat u = none := by
  cases hd : dropPrefix pat u with
  | none => rfl
  | some r =>
    exfalso
    have h1 : pat <+: u := ⟨r, (dropPrefix_sound hd).symm⟩
    have h2 : pat <:+: s := h1.isInfix.trans hu.isInfix
    rw [containsSub_of_midseq h2] at hs
    cases hs

theorem optAmPm_no_match {β : Type} (k : Option Bool → Str → Option β) (u : Str)
    (ha : dropPrefix ("am".data) u = none) (hp : dropPrefix ("pm".data) u = none) :
    optAmPm k u = k none u := by
  unfold optAmPm
  rw [ha, hp]

theorem optAmPm_total {β : Type} (k : Option Bool → Str → Option β)
    (hk : ∀ a u, (k a u).isSome) (u : Str) : (optAmPm k u).isSome := by
  unfold optAmPm
  cases dropPrefix ("am".data) u with
  | some s' =>
    obtain ⟨y, hy⟩ := Option.isSome_iff_exists.mp (hk (some false) s')
    simp [hy, Option.orElse]
  | none =>
    cases dropPrefix ("pm".data) u with
    | some s'' =>
      obtain ⟨y, hy⟩ := Option.isSome_iff_exists.mp (hk (some true) s'')
      simp [hy, Option.orElse]
    | none => exact hk none u

theorem wsStar_total {β : Type} (k : Str → Option β)
    (hk : ∀ u, (k u).isSome) (s : Str) :
    wsStar k s = k (s.dropWhile isSpaceC) := by
  induction s with
  | nil => rfl
  | cons c cs ih =>
    unfold wsStar
    by_cases hc : isSpaceC c = true
    · rw [if_pos hc, ih, List.dropWhile_cons, if_pos hc]
      obtain ⟨y, hy⟩ := Option.isSome_iff_exists.mp (hk (cs.dropWhile isSpaceC))
      rw [hy]
      rfl
    · rw [if_neg hc, List.dropWhile_cons,
        if_neg (by simpa using hc)]

theorem digits12_none {β : Type} (k : Nat → Str → Option β) {c : Char} (s : Str)
    (h : isDigitC c = false) : digits12 k (c :: s) = none := by
  cases s <;> simp [digits12, h]

theorem timeCore_none {c : Char} (s : Str) (h : isDigitC c = false) :
    timeCore (c :: s) = none := by
  unfold timeCore
  exact digits12_none _ _ h

theorem timeCore_at_digits (d1 d2 : Char) (rest : Str)
    (h1 : isDigitC d1 = true) (h2 : isDigitC d2 = true)
    (hcol : ∀ c cs, rest = c :: cs → c ≠ ':')
    (ham : dropPrefix ("am".data) (rest.dropWhile isSpaceC) = none)
    (hpm : dropPrefix ("pm".data) (rest.dropWhile isSpaceC) = none) :
    timeCore (d1 :: d2 :: rest) =
      some (digitVal d1 * 10 + digitVal d2, 0, none) := by
  have htot : ∀ u, (optAmPm
      (fun ap _ => some ((digitVal d1 * 10 + digitVal d2 : Nat), (0 : Nat), ap))
        u).isSome :=
    optAmPm_total _ (fun _ _ => rfl)
  unfold timeCore
  simp only [digits12, h1, h2, if_true]
  have hk : optMinute (fun mi s2 =>
      wsStar (fun s3 =>
        optAmPm (fun ap _ =>
          some ((digitVal d1 * 10 + digitVal d2 : Nat), mi.getD 0, ap)) s3) s2)
      rest = some (digitVal d1 * 10 + digitVal d2, 0, none) := by
    cases rest with
    | nil =>
      unfold optMinute
      dsimp only
      simp only [Option.getD_none]
      rw [wsStar_total _ htot]
      rw [optAmPm_no_match _ _ ham hpm]
    | cons c cs =>
      unfold optMinute
      dsimp only
      rw [if_neg (hcol c cs rfl)]
      simp only [Option.getD_none]
      rw [wsStar_total _ htot]
      rw [optAmPm_no_match _ _ ham hpm]
  rw [hk]
  rfl

theorem dropPrefix_at_digit {d : Char} (s : Str) (hd : isDigitC d = true) :
    dropPrefix ("at".data) (d :: s) = none := by
  show dropPrefix ('a' :: 't' :: []) (d :: s) = none
  unfold dropPrefix
  rw [if_neg]
  intro hcontra
  exact absurd (beq_iff_eq.mp hcontra).symm (digit_ne hd (by decide))

theorem matchTimeAt_at_digits (d1 d2 : Char) (rest : Str)
    (val : Nat × Nat × Option Bool) (h1 : isDigitC d1 = true)
    (hT : timeCore (d1 :: d2 :: rest) = some val) :
    matchTimeAt (d1 :: d2 :: rest) = some val := by
  unfold matchTimeAt
  rw [dropPrefix_at_digit _ h1]
  exact hT

theorem wsStar_chain (d1 d2 : Char) (rest : Str) (val : Nat × Nat × Option Bool)
    (h1 : isDigitC d1 = true)
    (hT : timeCore (d1 :: d2 :: rest) = some val) :
    ∀ x : Str, (∀ c ∈ x, isDigitC c = false) →
      wsStar timeCore (x ++ d1 :: d2 :: rest) = none ∨
        wsStar timeCore (x ++ d1 :: d2 :: rest) = some val := by
  intro x
  induction x with
  | nil =>
    intro _
    right
    rw [List.nil_append]
    unfold wsStar
    rw [if_neg (by simp [digit_not_space h1])]
    exact hT
  | cons c x' ih =>
    intro hx
    have hc := hx c (List.mem_cons_self _ _)
    have hx' : ∀ e ∈ x', isDigitC e = false :=
      fun e he => hx e (List.mem_cons_of_mem _ he)
    rw [List.cons_append]
    unfold wsStar
    by_cases hsp : isSpaceC c = true
    · rw [if_pos hsp]
      rcases ih hx' with hn | hs
      · left
        rw [hn]
        simp only [Option.orElse]
        exact timeCore_none _ hc
      · right
        rw [hs]
        rfl
    · rw [if_neg hsp]
      left
      exact timeCore_none _ hc

theorem matchTimeAt_chain (d1 d2 : Char) (rest : Str)
    (val : Nat × Nat × Option Bool)
    (h1 : isDigitC d1 = true)
    (hT : timeCore (d1 :: d2 :: rest) = some val) :
    ∀ u : Str, (∀ c ∈ u, isDigitC c = false) →
      matchTimeAt (u ++ d1 :: d2 :: rest) = none ∨
        matchTimeAt (u ++ d1 :: d2 :: rest) = some val := by
  intro u hu
  cases u with
  | nil =>
    right
    rw [List.nil_append]
    exact matchTimeAt_at_digits d1 d2 rest val h1 hT
  | cons a u2 =>
    have ha := hu a (List.mem_cons_self _ _)
    cases u2 with
    | nil =>
      simp only [List.cons_append, List.nil_append]
      unfold matchTimeAt
      rcases hdp : dropPrefix ("at".data) (a :: d1 :: d2 :: rest) with _ | s1
      · left
        exact timeCore_none _ ha
      · exfalso
        have hsh := dropPrefix_sound hdp
        injection hsh with e1 e2
        injection e2 with e2 e3
        exact absurd e2 (digit_ne h1 (by decide))
    | cons b u3 =>
      have hu3 : ∀ e ∈ u3, isDigitC e = false :=
        fun e he => hu e (List.mem_cons_of_mem _ (List.mem_cons_of_mem _ he))
      simp only [List.cons_append]
      unfold matchTimeAt
      rcases hdp : dropPrefix ("at".data) (a :: b :: (u3 ++ d1 :: d2 :: rest))
        with _ | s1
      · left
        exact timeCore_none _ ha
      · have hsh := dropPrefix_sound hdp
        injection hsh with e1 e2
        injection e2 with e2 e3
        have hs1 : s1 = u3 ++ d1 :: d2 :: rest := e3.symm
        subst hs1
        dsimp only
        have hright : timeCore (a :: b :: (u3 ++ d1 :: d2 :: rest)) = none :=
          timeCore_none _ ha
        cases u3 with
        | nil =>
          left
          have hwp : wsPlus timeCore (([] : Str) ++ d1 :: d2 :: rest) = none := by
            rw [List.nil_append]
            unfold wsPlus
            dsimp only
            rw [if_neg (by simp [digit_not_space h1])]
          rw [hwp]
          simp only [Option.orElse]
          exact hright
        | cons c u4 =>
          have hc := hu3 c (List.mem_cons_self _ _)
          have hu4 : ∀ e ∈ u4, isDigitC e = false :=
            fun e he => hu3 e (List.mem_cons_of_mem _ he)
          by_cases hsp : isSpaceC c = true
          · have hwp : wsPlus timeCore ((c :: u4) ++ d1 :: d2 :: rest) =
                wsStar timeCore (u4 ++ d1 :: d2 :: rest) := by
              rw [List.cons_append]
              unfold wsPlus
              dsimp only
              rw [if_pos hsp]
            rw [hwp]
            rcases wsStar_chain d1 d2 rest val h1 hT u4 hu4 with hn | hs
            · left
              rw [hn]
              simp only [Option.orElse]
              exact hright
            · right
              rw [hs]
              rfl
          · have hwp : wsPlus timeCore ((c :: u4) ++ d1 :: d2 :: rest) = none := by
              rw [List.cons_append]
              unfold wsPlus
              dsimp only
              rw [if_neg hsp]
            rw [hwp]
            left
            simp only [Option.orElse]
            exact hright

theorem timeScan_concat (d1 d2 : Char) (rest pre : Str)
    (val : Nat × Nat × Option Bool)
    (h1 : isDigitC d1 = true)
    (hT : timeCore (d1 :: d2 :: rest) = some val)
    (hpre : ∀ c ∈ pre, isDigitC c = false) :
    timeScan (pre ++ d1 :: d2 :: rest) = some val := by
  unfold timeScan
  have main : ∀ p : Str, (∀ c ∈ p, isDigitC c = false) → ∀ prev,
      scanFrom (fun _ t => matchTimeAt t) prev (p ++ d1 :: d2 :: rest) =
        some val := by
    intro p
    induction p with
    | nil =>
      intro _ prev
      rw [List.nil_append]
      unfold scanFrom
      rw [matchTimeAt_at_digits d1 d2 rest val h1 hT]
      rfl
    | cons c p' ih =>
      intro hp prev
      have hp' : ∀ e ∈ p', isDigitC e = false :=
        fun e he => hp e (List.mem_cons_of_mem _ he)
      rw [List.cons_append]
      unfold scanFrom
      rcases matchTimeAt_chain d1 d2 rest val h1 hT (c :: p') hp with hn | hs
      · rw [List.cons_append] at hn
        rw [hn]
        simp only [Option.orElse]
        exact ih hp' (some c)
      · rw [List.cons_append] at hs
        rw [hs]
        rfl
  exact main pre hpre none

/-- C10: the time scan of `parseFlexibleDate` matches the first
one-or-two-digit number anywhere in the text (no `at` or am/pm context is
required), so whenever the parser resolves a date on a text whose first
digit group is a two-digit number between 13 and 23 (not followed by a
colon) and the text contains no am/pm, the result is timed — not all-day —
with that number as the hour. -/
theorem C10_first_digits_hour (now : Int) (pre rest : Str) (d1 d2 : Char)
    (r : DateRange)
    (hpre : ∀ c ∈ pre, isDigitC c = false)
    (h1 : isDigitC d1 = true) (h2 : isDigitC d2 = true)
    (hlo : 13 ≤ digitVal d1 * 10 + digitVal d2)
    (hhi : digitVal d1 * 10 + digitVal d2 ≤ 23)
    (hcolon : ∀ c cs, rest = c :: cs → c ≠ ':')
    (ham : containsSub ("am".data) (lower (pre ++ d1 :: d2 :: rest)) = false)
    (hpm : containsSub ("pm".data) (lower (pre ++ d1 :: d2 :: rest)) = false)
    (hp : parseFlexibleDate now (pre ++ d1 :: d2 :: rest) = some r) :
    r.allDay = false ∧
      ∃ td : Int, r.startTs =
        isoMinutes (td * 1440 + (digitVal d1 * 10 + digitVal d2 : Nat) * 60) := by
  have hdec : lower (pre ++ d1 :: d2 :: rest) =
      lower pre ++ d1 :: d2 :: lower rest := by
    unfold lower
    rw [List.map_append]
    simp only [List.map_cons]
    rw [lcChar_digit h1, lcChar_digit h2]
  have hpre' : ∀ c ∈ lower pre, isDigitC c = false := by
    intro c hc
    obtain ⟨a, ha, rfl⟩ := List.mem_map.mp hc
    exact lcChar_not_digit (hpre a ha)
  have hcol' : ∀ c cs, lower rest = c :: cs → c ≠ ':' := by
    intro c cs hr he
    cases rest with
    | nil => cases hr
    | cons a as =>
      unfold lower at hr
      rw [List.map_cons] at hr
      injection hr with hr1 _
      rw [← hr1] at he
      exact hcolon a as rfl (lcChar_eq_colon he)
  have hsuf : (lower rest).dropWhile isSpaceC <:+ lower (pre ++ d1 :: d2 :: rest) := by
    rw [hdec]
    refine (List.dropWhile_suffix _).trans ?_
    exact ⟨lower pre ++ [d1, d2], by simp⟩
  have hamd := no_prefix_of_not_infix ham hsuf
  have hpmd := no_prefix_of_not_infix hpm hsuf
  have htc := timeCore_at_digits d1 d2 (lower rest) h1 h2 hcol' hamd hpmd
  have hts := timeScan_concat d1 d2 (lower rest) (lower pre) _ h1 htc hpre'
  unfold parseFlexibleDate at hp
  dsimp only at hp
  rw [hdec] at hp
  cases hres : resolveTargetDate now (lower pre ++ d1 :: d2 :: lower rest) with
  | none =>
    rw [hres] at hp
    cases hp
  | some td0 =>
    rw [hres, hts] at hp
    dsimp only at hp
    have hj : jsHour (digitVal d1 * 10 + digitVal d2) none =
        digitVal d1 * 10 + digitVal d2 := by
      simp [jsHour]
    rw [hj] at hp
    rw [if_pos (by simp only [Option.isSome_none, Bool.false_or,
      Bool.and_eq_true, decide_eq_true_eq]; omega)] at hp
    injection hp with hp
    rw [← hp]
    refine ⟨rfl, td0 / 1440, ?_⟩
    simp only [Nat.cast_zero, add_zero]

/-- C10 witness: the theorem applied to `"meeting on may 15 2026"`: the
date resolves to 2026-05-15 and the scan turns the day 15 into the 15:00
hour. -/
theorem C10_first_digits_hour_witness :
    parseFlexibleDate 0 (("meeting on may ".data) ++ '1' :: '5' :: (" 2026".data)) =
      some ⟨("2026-05-15T15:00:00.000Z".data), ("2026-05-15T16:00:00.000Z".data),
        false⟩ ∧
    (false = false ∧
      ∃ td : Int, ("2026-05-15T15:00:00.000Z".data) =
        isoMinutes (td * 1440 + (digitVal '1' * 10 + digitVal '5' : Nat) * 60)) :=
  ⟨by decide,
   C10_first_digits_hour 0 ("meeting on may ".data) (" 2026".data) '1' '5'
     ⟨("2026-05-15T15:00:00.000Z".data), ("2026-05-15T16:00:00.000Z".data), false⟩
     (by decide) (by decide) (by decide) (by decide) (by decide)
     (by intro c cs h he; cases h; cases he) (by decide) (by decide) (by decide)⟩

theorem lcChar_lt65 {c : Char} (h : c.toNat < 65) : lcChar c = c := by
  unfold lcChar
  rw [if_neg]
  rintro ⟨h1, _⟩
  rw [Char.le_def] at h1
  have h1' : 65 ≤ c.toNat := h1
  omega

theorem digitOrDash_lcChar {c : Char} (h : digitOrDash c) : lcChar c = c := by
  rcases h with h | h
  · exact lcChar_digit h
  · subst h
    rfl

theorem digitOrDash_not_space {c : Char} (h : digitOrDash c) :
    isSpaceC c = false := by
  rcases h with h | h
  · exact digit_not_space h
  · subst h
    rfl

theorem letter_ne {c l : Char} (hc : digitOrDash c) (hl : 97 ≤ l.toNat) :
    l ≠ c := by
  intro he
  subst he
  rcases hc with hc | hc
  · have := digit_toNat hc
    omega
  · rw [hc] at hl
    simp at hl

theorem lower_fixed {s : Str} (h : ∀ c ∈ s, lcChar c = c) : lower s = s := by
  induction s with
  | nil => rfl
  | cons c cs ih =>
    unfold lower
    rw [List.map_cons, h c (List.mem_cons_self _ _)]
    have := ih (fun e he => h e (List.mem_cons_of_mem _ he))
    unfold lower at this
    rw [this]

theorem dropPrefix_head_ne {p c : Char} (ps cs : Str) (h : p ≠ c) :
    dropPrefix (p :: ps) (c :: cs) = none := by
  unfold dropPrefix
  rw [if_neg]
  intro hcon
  exact h (beq_iff_eq.mp hcon)

theorem dropPrefix_nil_none {p : Char} (ps : Str) :
    dropPrefix (p :: ps) [] = none := rfl

theorem altFirst_nil_none {α β : Type} (k : α → Str → Option β)
    (alts : List (Str × α)) (h : ∀ pv ∈ alts, pv.1 ≠ []) :
    altFirst k alts [] = none := by
  induction alts with
  | nil => rfl
  | cons pv rest ih =>
    obtain ⟨p, ps, hps⟩ :
        ∃ p ps, pv.1 = p :: ps := by
      cases hpv : pv.1 with
      | nil => exact absurd hpv (h pv (List.mem_cons_self _ _))
      | cons p ps => exact ⟨p, ps, rfl⟩
    cases pv with
    | mk pat v =>
      simp only at hps
      subst hps
      unfold altFirst
      rw [dropPrefix_nil_none]
      exact ih (fun q hq => h q (List.mem_cons_of_mem _ hq))

theorem altFirst_head_none {α β : Type} (k : α → Str → Option β)
    (alts : List (Str × α)) (c : Char) (cs : Str)
    (h : ∀ pv ∈ alts, ∃ p ps, pv.1 = p :: ps ∧ p ≠ c) :
    altFirst k alts (c :: cs) = none := by
  induction alts with
  | nil => rfl
  | cons pv rest ih =>
    obtain ⟨p, ps, hps, hne⟩ := h pv (List.mem_cons_self _ _)
    cases pv with
    | mk pat v =>
      simp only at hps
      subst hps
      unfold altFirst
      rw [dropPrefix_head_ne _ _ hne]
      exact ih (fun q hq => h q (List.mem_cons_of_mem _ hq))

theorem optAlts_skip {β : Type} (k : Str → Option β) (alts : List Str) (s : Str)
    (h : ∀ a ∈ alts, dropPrefix a s = none) : optAlts k alts s = k s := by
  induction alts with
  | nil => rfl
  | cons a rest ih =>
    unfold optAlts
    rw [h a (List.mem_cons_self _ _)]
    exact ih (fun q hq => h q (List.mem_cons_of_mem _ hq))

theorem monthAlts_head_none {β : Type} (k : Nat → Str → Option β) (c : Char)
    (cs : Str) (hc : digitOrDash c) : altFirst k monthAlts (c :: cs) = none := by
  apply altFirst_head_none
  intro pv hpv
  fin_cases hpv <;> exact ⟨_, _, rfl, letter_ne hc (by decide)⟩

/-- A month-name-first scanner finds nothing in a digits-and-dashes
string. -/
theorem monthAltScan_none {β : Type} (k : Nat → Str → Option β) (s : Str)
    (h : ∀ c ∈ s, digitOrDash c) :
    scanFrom (fun prev t =>
      if boundaryBefore prev then altFirst k monthAlts t else none) none s =
      none := by
  have gen : ∀ s2 : Str, (∀ c ∈ s2, digitOrDash c) → ∀ prev,
      scanFrom (fun prev t =>
        if boundaryBefore prev then altFirst k monthAlts t else none) prev s2 =
        none := by
    intro s2
    induction s2 with
    | nil =>
      intro _ prev
      show (if boundaryBefore prev then altFirst k monthAlts [] else none) = none
      split
      · exact altFirst_nil_none _ _ (by decide)
      · rfl
    | cons c cs ih =>
      intro hs prev
      unfold scanFrom
      try dsimp only
      have hstep : (if boundaryBefore prev then altFirst k monthAlts (c :: cs)
          else none) = none := by
        split
        · exact monthAlts_head_none _ _ _ (hs c (List.mem_cons_self _ _))
        · rfl
      rw [hstep]
      exact ih (fun e he => hs e (List.mem_cons_of_mem _ he)) (some c)
  exact gen s h none

theorem monthYearScan_none (s : Str) (h : ∀ c ∈ s, digitOrDash c) :
    monthYearScan s = none :=
  monthAltScan_none _ s h

theorem monthDayYearScan_none (s : Str) (h : ∀ c ∈ s, digitOrDash c) :
    monthDayYearScan s = none :=
  monthAltScan_none _ s h

theorem wsPlus_dd_none {β : Type} (k : Str → Option β) (t : Str)
    (h : ∀ c ∈ t, digitOrDash c) : wsPlus k t = none := by
  cases t with
  | nil => rfl
  | cons c cs =>
    unfold wsPlus
    try dsimp only
    rw [if_neg (by simp [digitOrDash_not_space (h c (List.mem_cons_self _ _))])]

theorem ordinal_skip_dd {β : Type} (k : Str → Option β) (t : Str)
    (h : ∀ c ∈ t, digitOrDash c) : optAlts k ordinalAlts t = k t := by
  apply optAlts_skip
  intro a ha
  fin_cases ha <;>
  · cases t with
    | nil => rfl
    | cons c cs =>
      exact dropPrefix_head_ne _ _
        (letter_ne (h c (List.mem_cons_self _ _)) (by decide))

theorem dayMonthYearScan_none (s : Str) (h : ∀ c ∈ s, digitOrDash c) :
    dayMonthYearScan s = none := by
  unfold dayMonthYearScan
  have inner : ∀ t : Str, (∀ c ∈ t, digitOrDash c) → ∀ day : Nat,
      optAlts (fun t2 =>
        wsPlus (fun t3 =>
          altFirst (fun mo t4 =>
            wsPlus (fun t5 =>
              digits4 (fun yr t6 =>
                if boundaryAfter t6 then some (day, mo, yr) else none) t5) t4)
            monthAlts t3) t2) ordinalAlts t = none := by
    intro t ht day
    rw [ordinal_skip_dd _ _ ht]
    exact wsPlus_dd_none _ _ ht
  have matchnone : ∀ prev t, (∀ c ∈ t, digitOrDash c) →
      (if boundaryBefore prev then
        digits12 (fun day t1 =>
          optAlts (fun t2 =>
            wsPlus (fun t3 =>
              altFirst (fun mo t4 =>
                wsPlus (fun t5 =>
                  digits4 (fun yr t6 =>
                    if boundaryAfter t6 then some (day, mo, yr) else none) t5)
                  t4) monthAlts t3) t2) ordinalAlts t1) t
      else none) = none := by
    intro prev t ht
    split
    · cases t with
      | nil => rfl
      | cons c1 t1 =>
        cases hd1 : isDigitC c1 with
        | false => exact digits12_none _ _ hd1
        | true =>
          cases t1 with
          | nil =>
            show digits12 _ (c1 :: []) = none
            unfold digits12
            try dsimp only
            rw [if_pos hd1]
            exact inner [] (by intro c hc; cases hc) _
          | cons c2 t2 =>
            have ht1 : ∀ c ∈ t2, digitOrDash c := by
              intro e he
              exact ht e (List.mem_cons_of_mem _ (List.mem_cons_of_mem _ he))
            have ht2 : ∀ c ∈ c2 :: t2, digitOrDash c := by
              intro e he
              exact ht e (List.mem_cons_of_mem _ he)
            unfold digits12
            try dsimp only
            rw [if_pos hd1]
            split
            · rw [inner t2 ht1 _, inner (c2 :: t2) ht2 _]
              rfl
            · exact inner (c2 :: t2) ht2 _
    · rfl
  have gen : ∀ s2 : Str, (∀ c ∈ s2, digitOrDash c) → ∀ prev,
      scanFrom (fun prev t =>
        if boundaryBefore prev then
          digits12 (fun day t1 =>
            optAlts (fun t2 =>
              wsPlus (fun t3 =>
                altFirst (fun mo t4 =>
                  wsPlus (fun t5 =>
                    digits4 (fun yr t6 =>
                      if boundaryAfter t6 then some (day, mo, yr) else none)
                      t5) t4) monthAlts t3) t2) ordinalAlts t1) t
        else none) prev s2 = none := by
    intro s2
    induction s2 with
    | nil =>
      intro hs prev
      exact matchnone prev [] hs
    | cons c cs ih =>
      intro hs prev
      unfold scanFrom
      try dsimp only
      rw [matchnone prev (c :: cs) hs]
      exact ih (fun e he => hs e (List.mem_cons_of_mem _ he)) (some c)
  exact gen s h none

theorem digitVal_digitCh {n : Nat} (h : n < 10) : digitVal (digitCh n) = n := by
  interval_cases n <;> decide

theorem isDigitC_digitCh {n : Nat} (h : n < 10) : isDigitC (digitCh n) = true := by
  interval_cases n <;> decide

theorem pad2_chars (n : Nat) : ∀ c ∈ pad2 n, digitOrDash c := by
  intro c hc
  unfold pad2 at hc
  rcases List.mem_cons.mp hc with rfl | hc
  · exact Or.inl (isDigitC_digitCh (Nat.mod_lt _ (by decide)))
  rcases List.mem_cons.mp hc with rfl | hc
  · exact Or.inl (isDigitC_digitCh (Nat.mod_lt _ (by decide)))
  · cases hc

theorem pad4_chars (n : Nat) : ∀ c ∈ pad4 n, digitOrDash c := by
  intro c hc
  unfold pad4 at hc
  rcases List.mem_cons.mp hc with rfl | hc
  · exact Or.inl (isDigitC_digitCh (Nat.mod_lt _ (by decide)))
  rcases List.mem_cons.mp hc with rfl | hc
  · exact Or.inl (isDigitC_digitCh (Nat.mod_lt _ (by decide)))
  rcases List.mem_cons.mp hc with rfl | hc
  · exact Or.inl (isDigitC_digitCh (Nat.mod_lt _ (by decide)))
  rcases List.mem_cons.mp hc with rfl | hc
  · exact Or.inl (isDigitC_digitCh (Nat.mod_lt _ (by decide)))
  · cases hc

theorem isoDate_chars (Y Mo D : Nat) :
    ∀ c ∈ pad4 Y ++ '-' :: pad2 Mo ++ '-' :: pad2 D, digitOrDash c := by
  intro c hc
  rcases List.mem_append.mp hc with hc | hc
  · rcases List.mem_append.mp hc with hc | hc
    · exact pad4_chars _ _ hc
    rcases List.mem_cons.mp hc with rfl | hc
    · exact Or.inr rfl
    · exact pad2_chars _ _ hc
  · rcases List.mem_cons.mp hc with rfl | hc
    · exact Or.inr rfl
    · exact pad2_chars _ _ hc

theorem containsSub_false_dd {pat S : Str} (c0 : Char) (hc0 : c0 ∈ pat)
    (hS : ∀ c ∈ S, digitOrDash c) (hx : isDigitC c0 = false) (hd : c0 ≠ '-') :
    containsSub pat S = false := by
  cases hb : containsSub pat S with
  | false => rfl
  | true =>
    rcases hS c0 (mem_of_containsSub hb c0 hc0) with h | h
    · rw [hx] at h
      cases h
    · exact absurd h hd

theorem digits2_pad2 {β : Type} (k : Nat → Str → Option β) {n : Nat}
    (h : n ≤ 99) (s : Str) : digits2 k (pad2 n ++ s) = k n s := by
  show digits2 k (digitCh (n / 10 % 10) :: digitCh (n % 10) :: s) = k n s
  unfold digits2
  try dsimp only
  rw [if_pos (by rw [isDigitC_digitCh (Nat.mod_lt _ (by decide)),
    isDigitC_digitCh (Nat.mod_lt _ (by decide))]; rfl)]
  have hv : digitVal (digitCh (n / 10 % 10)) * 10 + digitVal (digitCh (n % 10)) =
      n := by
    rw [digitVal_digitCh (Nat.mod_lt _ (by decide)),
      digitVal_digitCh (Nat.mod_lt _ (by decide))]
    omega
  rw [hv]

theorem digits2_pad2_nil {β : Type} (k : Nat → Str → Option β) {n : Nat}
    (h : n ≤ 99) : digits2 k (pad2 n) = k n [] := by
  show digits2 k (digitCh (n / 10 % 10) :: digitCh (n % 10) :: []) = k n []
  unfold digits2
  try dsimp only
  rw [if_pos (by rw [isDigitC_digitCh (Nat.mod_lt _ (by decide)),
    isDigitC_digitCh (Nat.mod_lt _ (by decide))]; rfl)]
  have hv : digitVal (digitCh (n / 10 % 10)) * 10 + digitVal (digitCh (n % 10)) =
      n := by
    rw [digitVal_digitCh (Nat.mod_lt _ (by decide)),
      digitVal_digitCh (Nat.mod_lt _ (by decide))]
    omega
  rw [hv]

theorem digits4_pad4 {β : Type} (k : Nat → Str → Option β) {n : Nat}
    (h : n ≤ 9999) (s : Str) : digits4 k (pad4 n ++ s) = k n s := by
  show digits4 k (digitCh (n / 1000 % 10) :: digitCh (n / 100 % 10) ::
    digitCh (n / 10 % 10) :: digitCh (n % 10) :: s) = k n s
  unfold digits4
  try dsimp only
  rw [if_pos (by rw [isDigitC_digitCh (Nat.mod_lt _ (by decide)),
    isDigitC_digitCh (Nat.mod_lt _ (by decide)),
    isDigitC_digitCh (Nat.mod_lt _ (by decide)),
    isDigitC_digitCh (Nat.mod_lt _ (by decide))]; rfl)]
  have hv : digitVal (digitCh (n / 1000 % 10)) * 1000 +
      digitVal (digitCh (n / 100 % 10)) * 100 +
      digitVal (digitCh (n / 10 % 10)) * 10 + digitVal (digitCh (n % 10)) = n := by
    rw [digitVal_digitCh (Nat.mod_lt _ (by decide)),
      digitVal_digitCh (Nat.mod_lt _ (by decide)),
      digitVal_digitCh (Nat.mod_lt _ (by decide)),
      digitVal_digitCh (Nat.mod_lt _ (by decide))]
    omega
  rw [hv]

theorem scanFrom_first {β : Type} (f : Option Char → Str → Option β)
    (prev : Option Char) (s : Str) (v : β) (h : f prev s = some v) :
    scanFrom f prev s = some v := by
  cases s with
  | nil => exact h
  | cons c cs =>
    unfold scanFrom
    try dsimp only
    rw [h]
    rfl

theorem isoScan_pad {Y Mo D : Nat} (hY : Y ≤ 9999) (hMo : Mo ≤ 99)
    (hD : D ≤ 99) :
    isoScan (pad4 Y ++ '-' :: pad2 Mo ++ '-' :: pad2 D) = some (Y, Mo, D) := by
  unfold isoScan
  apply scanFrom_first
  rw [if_pos (show boundaryBefore none = true from rfl)]
  rw [List.append_assoc, digits4_pad4 _ hY]
  show digits2 _ (pad2 Mo ++ '-' :: pad2 D) = some (Y, Mo, D)
  rw [digits2_pad2 _ hMo]
  show digits2 _ (pad2 D) = some (Y, Mo, D)
  rw [digits2_pad2_nil _ hD]
  rfl

theorem monthDay_day_bounds (doy : Int) (h0 : 0 ≤ doy) (h1 : doy ≤ 365) :
    1 ≤ (monthDay doy).2 ∧ (monthDay doy).2 ≤ 31 := by
  unfold monthDay
  dsimp only
  omega

theorem civilFromDays_bounds (z : Int) :
    1 ≤ (civilFromDays z).2.1 ∧ (civilFromDays z).2.1 ≤ 12 ∧
      1 ≤ (civilFromDays z).2.2 ∧ (civilFromDays z).2.2 ≤ 31 := by
  have hA := doeSplit_spec z
  have hB := yearParts_spec (doeSplit z).2 hA.2.1 hA.2.2
  have hC := monthDay_spec (yearParts (doeSplit z).2).2.2.2 hB.2.2.2.2.2.2.1
    hB.2.2.2.2.2.2.2.1
  have hD := monthDay_day_bounds (yearParts (doeSplit z).2).2.2.2
    hB.2.2.2.2.2.2.1 hB.2.2.2.2.2.2.2.1
  unfold civilFromDays
  dsimp only
  exact ⟨hC.1, hC.2.1, hD.1, hD.2⟩

theorem daysFromCivil_shift (y m d : Int) :
    daysFromCivil y m d = daysFromCivil y m 1 + (d - 1) := by
  unfold daysFromCivil
  dsimp only
  split_ifs <;> omega

/-- Feeding the civil components of a day count back through the JS `Date`
constructor (0-based month) returns the same day count, provided the year
is outside the 0-99 remap window. -/
theorem makeJsDate_civil (zd : Int) (hy1 : 100 ≤ (civilFromDays zd).1)
    (hy2 : (civilFromDays zd).1 ≤ 9999) :
    makeJsDate (civilFromDays zd).1 ((civilFromDays zd).2.1 - 1)
      (civilFromDays zd).2.2 = zd := by
  obtain ⟨hm1, hm2, hd1, hd2⟩ := civilFromDays_bounds zd
  have hrt := civil_roundtrip zd
  rw [daysFromCivil_shift] at hrt
  set Y := (civilFromDays zd).1 with hYdef
  set Mo := (civilFromDays zd).2.1 with hMdef
  set D := (civilFromDays zd).2.2 with hDdef
  unfold makeJsDate
  dsimp only
  rw [if_neg (by omega)]
  have h1 : (Y * 12 + (Mo - 1)) / 12 = Y := by omega
  rw [h1]
  have h2 : Y * 12 + (Mo - 1) - Y * 12 + 1 = Mo := by omega
  rw [h2]
  omega

theorem isoDatePart_congr {a b : Int} (h : a / 1440 = b / 1440) :
    isoDatePart a = isoDatePart b := by
  unfold isoDatePart
  rw [h]

theorem isoDatePart_shape (m : Int) (hy1 : 0 ≤ (civilFromDays (m / 1440)).1)
    (hy2 : (civilFromDays (m / 1440)).1 ≤ 9999) :
    isoDatePart m = pad4 (civilFromDays (m / 1440)).1.toNat ++
      '-' :: pad2 (civilFromDays (m / 1440)).2.1.toNat ++
      '-' :: pad2 (civilFromDays (m / 1440)).2.2.toNat := by
  unfold isoDatePart
  dsimp only
  unfold isoYearStr
  rw [if_pos ⟨hy1, hy2⟩]

theorem timeScan_iso (Yn Mon Dn : Nat) :
    timeScan (pad4 Yn ++ '-' :: pad2 Mon ++ '-' :: pad2 Dn) =
      some (Yn / 1000 % 10 * 10 + Yn / 100 % 10, 0, none) := by
  have h1 : isDigitC (digitCh (Yn / 1000 % 10)) = true :=
    isDigitC_digitCh (Nat.mod_lt _ (by decide))
  have h2 : isDigitC (digitCh (Yn / 100 % 10)) = true :=
    isDigitC_digitCh (Nat.mod_lt _ (by decide))
  have h3 : isDigitC (digitCh (Yn / 10 % 10)) = true :=
    isDigitC_digitCh (Nat.mod_lt _ (by decide))
  have hcol : ∀ c cs, (digitCh (Yn / 10 % 10) :: digitCh (Yn % 10) ::
      '-' :: (pad2 Mon ++ '-' :: pad2 Dn) : Str) = c :: cs → c ≠ ':' := by
    intro c cs hh
    injection hh with he _
    rw [← he]
    exact digit_ne h3 (by decide)
  have hdw : ((digitCh (Yn / 10 % 10) :: digitCh (Yn % 10) ::
      '-' :: (pad2 Mon ++ '-' :: pad2 Dn) : Str).dropWhile isSpaceC) =
      digitCh (Yn / 10 % 10) :: digitCh (Yn % 10) ::
        '-' :: (pad2 Mon ++ '-' :: pad2 Dn) := by
    rw [List.dropWhile_cons, if_neg (by simp [digit_not_space h3])]
  have ham : dropPrefix ("am".data) ((digitCh (Yn / 10 % 10) :: digitCh (Yn % 10) ::
      '-' :: (pad2 Mon ++ '-' :: pad2 Dn) : Str).dropWhile isSpaceC) = none := by
    rw [hdw]
    exact dropPrefix_head_ne _ _ (letter_ne (Or.inl h3) (by decide))
  have hpm : dropPrefix ("pm".data) ((digitCh (Yn / 10 % 10) :: digitCh (Yn % 10) ::
      '-' :: (pad2 Mon ++ '-' :: pad2 Dn) : Str).dropWhile isSpaceC) = none := by
    rw [hdw]
    exact dropPrefix_head_ne _ _ (letter_ne (Or.inl h3) (by decide))
  have hT := timeCore_at_digits (digitCh (Yn / 1000 % 10)) (digitCh (Yn / 100 % 10))
    (digitCh (Yn / 10 % 10) :: digitCh (Yn % 10) :: '-' :: (pad2 Mon ++ '-' :: pad2 Dn))
    h1 h2 hcol ham hpm
  have hconcat := timeScan_concat (digitCh (Yn / 1000 % 10)) (digitCh (Yn / 100 % 10))
    (digitCh (Yn / 10 % 10) :: digitCh (Yn % 10) :: '-' :: (pad2 Mon ++ '-' :: pad2 Dn))
    [] _ h1 hT (fun c hc => absurd hc (List.not_mem_nil c))
  rw [digitVal_digitCh (Nat.mod_lt _ (by decide)),
    digitVal_digitCh (Nat.mod_lt _ (by decide))] at hconcat
  exact hconcat

theorem resolveTargetDate_iso (now : Int) (Yn Mon Dn : Nat) (hY : Yn ≤ 9999)
    (hMo : Mon ≤ 99) (hD : Dn ≤ 99) :
    resolveTargetDate now (pad4 Yn ++ '-' :: pad2 Mon ++ '-' :: pad2 Dn) =
      some (makeJsDate (Yn : Int) ((Mon : Int) - 1) (Dn : Int) * 1440) := by
  have hch := isoDate_chars Yn Mon Dn
  have hT : containsSub ("today".data) (pad4 Yn ++ '-' :: pad2 Mon ++
      '-' :: pad2 Dn) = false :=
    containsSub_false_dd 't' (by decide) hch (by decide) (by decide)
  have hTm : containsSub ("tomorrow".data) (pad4 Yn ++ '-' :: pad2 Mon ++
      '-' :: pad2 Dn) = false :=
    containsSub_false_dd 't' (by decide) hch (by decide) (by decide)
  have hNw : containsSub ("next week".data) (pad4 Yn ++ '-' :: pad2 Mon ++
      '-' :: pad2 Dn) = false :=
    containsSub_false_dd 'n' (by decide) hch (by decide) (by decide)
  unfold resolveTargetDate
  rw [if_neg (by intro hx; rw [hT] at hx; cases hx),
    if_neg (by intro hx; rw [hTm] at hx; cases hx),
    if_neg (by intro hx; rw [hNw] at hx; cases hx)]
  unfold patternDate
  rw [monthYearScan_none _ hch, monthDayYearScan_none _ hch,
    dayMonthYearScan_none _ hch, isoScan_pad hY hMo hD]
  dsimp only
  cases hus : usScan (pad4 Yn ++ '-' :: pad2 Mon ++ '-' :: pad2 Dn) with
  | none => rfl
  | some w =>
    obtain ⟨mo2, rest2⟩ := w
    obtain ⟨d2, yr2⟩ := rest2
    rfl

/-- Re-parsing the `YYYY-MM-DD` string the parser formats for a day count
`zd` resolves to the same calendar date: the ISO pattern matches and feeds
the JS `Date` constructor the same components, and the stray time-of-day
match on the year's first two digits can only change the time, not the
date. -/
theorem iso_reparse (now2 : Int) (Yn Mon Dn : Nat) (hY1 : 100 ≤ Yn)
    (hY2 : Yn ≤ 9999) (hM : Mon ≤ 99) (hD : Dn ≤ 99) (zd : Int)
    (hmk : makeJsDate (Yn : Int) ((Mon : Int) - 1) (Dn : Int) = zd)
    (hdp : isoDatePart (zd * 1440) =
      pad4 Yn ++ '-' :: pad2 Mon ++ '-' :: pad2 Dn) :
    ∃ r2 : DateRange,
      parseFlexibleDate now2 (pad4 Yn ++ '-' :: pad2 Mon ++ '-' :: pad2 Dn) =
        some r2 ∧
      r2.startTs.take 10 = pad4 Yn ++ '-' :: pad2 Mon ++ '-' :: pad2 Dn := by
  have hch := isoDate_chars Yn Mon Dn
  have hlow : lower (pad4 Yn ++ '-' :: pad2 Mon ++ '-' :: pad2 Dn) =
      pad4 Yn ++ '-' :: pad2 Mon ++ '-' :: pad2 Dn :=
    lower_fixed (fun c hc => digitOrDash_lcChar (hch c hc))
  have hres2 : resolveTargetDate now2 (pad4 Yn ++ '-' :: pad2 Mon ++
      '-' :: pad2 Dn) = some (zd * 1440) := by
    rw [resolveTargetDate_iso now2 _ _ _ hY2 hM hD, hmk]
  have hts2 := timeScan_iso Yn Mon Dn
  have hj : jsHour (Yn / 1000 % 10 * 10 + Yn / 100 % 10) none =
      Yn / 1000 % 10 * 10 + Yn / 100 % 10 := by
    simp [jsHour]
  have hzd : zd * 1440 / 1440 = zd := by omega
  have hlen : (pad4 Yn ++ '-' :: pad2 Mon ++ '-' :: pad2 Dn : Str).length = 10 := by
    simp [pad4, pad2]
  by_cases hv : 12 < Yn / 1000 % 10 * 10 + Yn / 100 % 10 ∧
      Yn / 1000 % 10 * 10 + Yn / 100 % 10 ≤ 23
  · refine ⟨⟨isoMinutes (zd * 1440 +
        ((Yn / 1000 % 10 * 10 + Yn / 100 % 10 : Nat) : Int) * 60 + ((0 : Nat) : Int)),
      isoMinutes (zd * 1440 +
        ((Yn / 1000 % 10 * 10 + Yn / 100 % 10 : Nat) : Int) * 60 + ((0 : Nat) : Int)
        + 60), false⟩, ?_, ?_⟩
    · unfold parseFlexibleDate
      rw [hlow]
      dsimp only
      rw [hres2]
      dsimp only
      rw [hts2]
      dsimp only
      rw [hj]
      rw [if_pos (by simp only [Option.isSome_none, Bool.false_or,
        Bool.and_eq_true, decide_eq_true_eq]; omega)]
      rw [hzd]
    · have hcongr : isoDatePart (zd * 1440 +
          ((Yn / 1000 % 10 * 10 + Yn / 100 % 10 : Nat) : Int) * 60 +
          ((0 : Nat) : Int)) = isoDatePart (zd * 1440) :=
        isoDatePart_congr (by omega)
      show (isoMinutes (zd * 1440 +
        ((Yn / 1000 % 10 * 10 + Yn / 100 % 10 : Nat) : Int) * 60 +
        ((0 : Nat) : Int))).take 10 = _
      unfold isoMinutes
      dsimp only
      rw [hcongr, hdp]
      rw [← hlen]
      exact List.take_left _ _
  · refine ⟨⟨isoDatePart (zd * 1440), isoDatePart (zd * 1440 + 1440), true⟩,
      ?_, ?_⟩
    · unfold parseFlexibleDate
      rw [hlow]
      dsimp only
      rw [hres2]
      dsimp only
      rw [hts2]
      dsimp only
      rw [hj]
      rw [if_neg (by simp only [Option.isSome_none, Bool.false_or,
        Bool.and_eq_true, decide_eq_true_eq]; omega)]
      rfl
    · show (isoDatePart (zd * 1440)).take 10 = _
      rw [hdp]
      rw [← hlen]
      exact List.take_length _

/-- C6 counterexample to the round-trip claim as stated: "jan 0 0100"
resolves (through JS day-0 rollover) to the all-day date 0099-12-31, but
re-parsing the formatted start "0099-12-31" goes through
`new Date(99, 11, 31)`, whose two-digit-year remap lands on 1999-12-31 — a
different date. -/
theorem C6_roundtrip_cex :
    parseFlexibleDate 0 ("jan 0 0100".data) =
      some ⟨("0099-12-31".data), ("0100-01-01".data), true⟩ ∧
    parseFlexibleDate 0 ("0099-12-31".data) =
      some ⟨("1999-12-31".data), ("2000-01-01".data), true⟩ ∧
    (("1999-12-31".data) : Str).take 10 ≠ ("0099-12-31".data) :=
  ⟨by decide, by decide, by decide⟩

/-- C6 amended: every all-day result's start is a formatted `YYYY-MM-DD`
date string, and whenever its year lies in 100..9999 (outside both the JS
two-digit-year remap window and the expanded-year format), re-parsing that
start string yields the same calendar date: the first ten characters of
the new start equal the old start.  (The re-parse may turn all-day into a
timed range when the year's first two digits read as an hour in 13..23, but
the date itself is preserved.) -/
theorem C6_allday_roundtrip (now now2 : Int) (text : Str) (r : DateRange)
    (hp : parseFlexibleDate now text = some r) (ha : r.allDay = true) :
    ∃ m : Int, r.startTs = isoDatePart m ∧
      (100 ≤ (civilFromDays (m / 1440)).1 → (civilFromDays (m / 1440)).1 ≤ 9999 →
        ∃ r2 : DateRange, parseFlexibleDate now2 r.startTs = some r2 ∧
          r2.startTs.take 10 = r.startTs) := by
  unfold parseFlexibleDate at hp
  dsimp only at hp
  cases hres : resolveTargetDate now (lower text) with
  | none =>
    rw [hres] at hp
    cases hp
  | some td0 =>
    rw [hres] at hp
    dsimp only at hp
    have hstart : r.startTs = isoDatePart td0 := by
      cases hts : timeScan (lower text) with
      | none =>
        rw [hts] at hp
        unfold allDayRange at hp
        injection hp with hp
        rw [← hp]
      | some w =>
        obtain ⟨h, rest⟩ := w
        obtain ⟨mi, ap⟩ := rest
        rw [hts] at hp
        dsimp only at hp
        split at hp
        · injection hp with hp
          rw [← hp] at ha
          exact absurd (show (false : Bool) = true from ha) (by decide)
        · unfold allDayRange at hp
          injection hp with hp
          rw [← hp]
    refine ⟨td0, hstart, fun hy1 hy2 => ?_⟩
    obtain ⟨hm1, hm2, hd1, hd2⟩ := civilFromDays_bounds (td0 / 1440)
    set Y := (civilFromDays (td0 / 1440)).1 with hYdef
    set Mo := (civilFromDays (td0 / 1440)).2.1 with hMdef
    set D := (civilFromDays (td0 / 1440)).2.2 with hDdef
    have hYn : (Y.toNat : Int) = Y := Int.toNat_of_nonneg (by omega)
    have hMn : (Mo.toNat : Int) = Mo := Int.toNat_of_nonneg (by omega)
    have hDn : (D.toNat : Int) = D := Int.toNat_of_nonneg (by omega)
    have hshape : isoDatePart td0 = pad4 Y.toNat ++ '-' :: pad2 Mo.toNat ++
        '-' :: pad2 D.toNat := isoDatePart_shape td0 (by omega) hy2
    have hmk : makeJsDate (Y.toNat : Int) ((Mo.toNat : Int) - 1) (D.toNat : Int) =
        td0 / 1440 := by
      rw [hYn, hMn, hDn]
      exact makeJsDate_civil (td0 / 1440) hy1 hy2
    have hdp : isoDatePart (td0 / 1440 * 1440) = pad4 Y.toNat ++
        '-' :: pad2 Mo.toNat ++ '-' :: pad2 D.toNat := by
      rw [isoDatePart_congr (show td0 / 1440 * 1440 / 1440 = td0 / 1440 from
        by omega)]
      exact hshape
    rw [hstart, hshape]
    exact iso_reparse now2 Y.toNat Mo.toNat D.toNat (by omega) (by omega)
      (by omega) (by omega) (td0 / 1440) hmk hdp

/-- C6 witness: "jan 5 2026" parses to the all-day range 2026-01-05 and the
amended round-trip applies to it. -/
theorem C6_allday_roundtrip_witness :
    ∃ m : Int, (("2026-01-05".data) : Str) = isoDatePart m ∧
      (100 ≤ (civilFromDays (m / 1440)).1 → (civilFromDays (m / 1440)).1 ≤ 9999 →
        ∃ r2 : DateRange, parseFlexibleDate 0 (("2026-01-05".data)) = some r2 ∧
          r2.startTs.take 10 = ("2026-01-05".data)) :=
  C6_allday_roundtrip 0 0 ("jan 5 2026".data)
    ⟨("2026-01-05".data), ("2026-01-06".data), true⟩ (by decide) (by decide)

/-- C1 counterexample to the claim as stated: one completion-marked
assistant message can contain two identity keys, so the guard also returns
true for a different key (different title and start) that the same message
happens to contain. -/
theorem C1_duplicate_guard_cex :
    hasProcessedAction
      [⟨assistantRole,
        ("✅ EVENT CREATED SUCCESSFULLY! Launch Review:2026-05-15 replaces Team Sync:2026-06-01".data)⟩]
      ("calendar".data) ("Launch Review:2026-05-15".data) = true ∧
    hasProcessedAction
      [⟨assistantRole,
        ("✅ EVENT CREATED SUCCESSFULLY! Launch Review:2026-05-15 replaces Team Sync:2026-06-01".data)⟩]
      ("calendar".data) ("Team Sync:2026-06-01".data) = true ∧
    (("Team Sync:2026-06-01".data) : Str) ≠ ("Launch Review:2026-05-15".data) := by
  refine ⟨by decide, by decide, by decide⟩

end Chat
